import Mathlib

/-!
Verification development for the Kubernetes Cluster Clash repository.

The repository ships a rulebook for a turn-based card game together with a
client-side session view.  The authoritative game engine that the design
document describes is not present as executable code, so the engine part of
this development is modelled from the specification text (every such
definition carries a doc comment starting with `Modelled from the spec:`).
The frontend helpers (`apiWsUrl`, the WebSocket log reducer of the table
view) are shallow embeddings of the TypeScript source.
-/

namespace KubeClash

/-! ## List helpers -/

/-- Replace the element at index `i` by applying `f`; out-of-range indices
leave the list unchanged. -/
def modifyAt {α : Type} : List α → Nat → (α → α) → List α
  | [], _, _ => []
  | x :: xs, 0, f => f x :: xs
  | x :: xs, n + 1, f => x :: modifyAt xs n f

theorem modifyAt_length {α : Type} (l : List α) (i : Nat) (f : α → α) :
    (modifyAt l i f).length = l.length := by
  induction l generalizing i with
  | nil => rfl
  | cons x xs ih =>
    cases i with
    | zero => rfl
    | succ n => simp [modifyAt, ih]

theorem modifyAt_get?_self {α : Type} (l : List α) (i : Nat) (f : α → α) :
    (modifyAt l i f)[i]? = (l[i]?).map f := by
  induction l generalizing i with
  | nil => simp [modifyAt]
  | cons x xs ih =>
    cases i with
    | zero => simp [modifyAt]
    | succ n => simpa [modifyAt] using ih n

theorem modifyAt_get?_ne {α : Type} (l : List α) (i j : Nat) (f : α → α)
    (h : i ≠ j) : (modifyAt l j f)[i]? = l[i]? := by
  induction l generalizing i j with
  | nil => simp [modifyAt]
  | cons x xs ih =>
    cases j with
    | zero =>
      cases i with
      | zero => exact absurd rfl h
      | succ m => simp [modifyAt]
    | succ n =>
      cases i with
      | zero => simp [modifyAt]
      | succ m =>
        simp only [modifyAt, List.getElem?_cons_succ]
        exact ih m n (fun hmn => h (by simp [hmn]))

theorem modifyAt_out {α : Type} (l : List α) (i : Nat) (f : α → α)
    (h : l.length ≤ i) : modifyAt l i f = l := by
  induction l generalizing i with
  | nil => rfl
  | cons x xs ih =>
    cases i with
    | zero => simp at h
    | succ n =>
      simp only [List.length_cons] at h
      simp [modifyAt, ih n (by omega)]

theorem modifyAt_map_sum (g : α → Nat) (l : List α) (i : Nat) (f : α → α)
    (h : i < l.length) (x : α) (hx : l[i]? = some x) :
    ((modifyAt l i f).map g).sum + g x = (l.map g).sum + g (f x) := by
  induction l generalizing i with
  | nil => simp at h
  | cons y ys ih =>
    cases i with
    | zero =>
      rw [List.getElem?_cons_zero] at hx
      cases hx
      simp [modifyAt]
      omega
    | succ n =>
      simp only [List.length_cons] at h
      rw [List.getElem?_cons_succ] at hx
      have := ih n (by omega) hx
      simp only [modifyAt, List.map_cons, List.sum_cons]
      omega

/-! ## Frontend: WebSocket URL construction (src/frontend/src/api/client.ts)

`apiWsUrl` in the TypeScript source parses the configured base URL with
`new URL(baseURL)`, overwrites its protocol with `wss:` when the original
protocol is `https:` and `ws:` otherwise, and returns the origin of that
URL with the path appended by string interpolation.  The embedding keeps a
parsed URL as its components (scheme, host, optional explicit port) and
serialises the origin the way the platform does: scheme, two slashes, host,
and the explicit port when one is present. -/

structure UrlParts where
  scheme : String
  host : String
  port : Option Nat
  deriving Repr, DecidableEq

/-- Origin serialisation: scheme ++ "//" ++ host ++ optional ":port". -/
def UrlParts.origin (u : UrlParts) : String :=
  u.scheme ++ "//" ++ u.host ++
    (match u.port with
     | some p => ":" ++ toString p
     | none => "")

/-- The protocol overwrite performed by `apiWsUrl`:
`url.protocol = url.protocol === "https:" ? "wss:" : "ws:"`. -/
def setWsProtocol (u : UrlParts) : UrlParts :=
  { u with scheme := if u.scheme = "https:" then "wss:" else "ws:" }

/-- `apiWsUrl(path)` returns the origin of the protocol-rewritten base URL
with `path` appended verbatim. -/
def apiWsUrl (base : UrlParts) (path : String) : String :=
  (setWsProtocol base).origin ++ path

/-! ## Frontend: table view WebSocket log reducer

Two versions of the table view exist in the sources.  The handler in
`src/frontend/src/pages/TablePlaceholder.tsx` prepends one entry for every
successfully parsed message.  The newer handler (src/unnamed/part_005)
routes messages of type "session_snapshot" to the session-player list
instead of the log, prepends a "turn" entry for messages of type "turn",
and prepends a generic entry otherwise.  Parsing failure leaves the state
unchanged in both versions.  `JSON.parse` is modelled by an `Option`-valued
already-parsed payload: `none` is a message that fails to parse. -/

structure SessionPlayer where
  userId : String
  aliasName : String
  deriving Repr, DecidableEq

/-- The fields of a parsed WebSocket payload that the handlers read. -/
structure WsData where
  type : Option String
  turnId : Option String
  createdAt : Option String
  players : Option (List SessionPlayer)
  deriving Repr, DecidableEq

/-- One entry of the retained message log (`WsMessage` in the source). -/
structure WsMessage where
  id : String
  type : String
  receivedAt : String
  payload : WsData
  deriving Repr, DecidableEq

/-- The component state touched by the part_005 handler. -/
structure TableState where
  messages : List WsMessage
  sessionPlayers : List SessionPlayer
  deriving Repr, DecidableEq

/-- The `ws.onmessage` handler of `TablePlaceholder.tsx`: every parsed
message prepends one entry to the first 24 entries of the previous list;
`freshId` stands for `crypto.randomUUID()` and `now` for
`new Date().toISOString()`. -/
def onMessageTsx (parsed : Option WsData) (freshId now : String)
    (msgs : List WsMessage) : List WsMessage :=
  match parsed with
  | none => msgs
  | some data =>
    { id := freshId, type := data.type.getD "unknown", receivedAt := now,
      payload := data } :: msgs.take 24

/-- The `ws.onmessage` handler of the newer table view (src/unnamed/part_005):
"session_snapshot" messages replace the session-player list; "turn" messages
prepend a turn entry (id from `turn_id`, time from `created_at`, with
fallbacks); every other parsed message prepends a generic entry. -/
def onMessagePart005 (parsed : Option WsData) (freshId now : String)
    (st : TableState) : TableState :=
  match parsed with
  | none => st
  | some data =>
    if data.type = some "session_snapshot" then
      { st with sessionPlayers := data.players.getD [] }
    else if data.type = some "turn" then
      { st with messages :=
          { id := data.turnId.getD freshId, type := "turn", receivedAt := data.createdAt.getD now,
            payload := data } :: st.messages.take 24 }
    else
      { st with messages :=
          { id := freshId, type := data.type.getD "event", receivedAt := now,
            payload := data } :: st.messages.take 24 }

/-! ## Game engine data model

Modelled from the spec: the repository contains no engine source code; the
definitions below embed the data model of spec section 3 and the rulebook
(card types, player boards, Commons Row, deck, match state).  Incident
markers are aggregated into one count per board, the shuffle of the spec is
modelled as the identity permutation of the discard pile (conservation and
counts do not depend on the order), and the retired cards of an eliminated
player stay on the flipped board in the `played` zone, as the rulebook
describes the physical game. -/

inductive CardType
  | Node
  | ControlPlane
  | Storage
  | Networking
  | Workload
  | Automation
  | Upgrade
  | Attack
  | Response
  deriving Repr, DecidableEq

/-- Modelled from the spec: the closed effect vocabulary of section 9. -/
inductive Effect
  | GainResource (n : Nat)
  | AddIncident (n : Nat)
  | StealResource (n : Nat)
  | ReduceSLO (n : Nat)
  | DrawCard (n : Nat)
  | RemoveIncident (n : Nat)
  | Cancel
  deriving Repr, DecidableEq

/-- Modelled from the spec: an immutable card catalog entry. -/
structure Card where
  id : Nat
  ctype : CardType
  cost : Nat
  slo : Nat
  prereq : Option CardType
  repairCost : Option Nat
  effects : List Effect
  deriving Repr, DecidableEq

/-- Modelled from the spec: the mutable per-player board.  Resilience is an
integer because it may go negative transiently; elimination is only checked
at the Stabilize checkpoint. -/
structure PlayerBoard where
  hand : List Card
  played : List Card
  resources : Nat
  resilience : Int
  slo : Nat
  incidents : Nat
  eliminated : Bool
  deriving Repr, DecidableEq

/-- Modelled from the spec: the seven phases of one turn, in order. -/
inductive Phase
  | Refresh
  | Plan
  | Deploy
  | Incidents
  | Sabotage
  | Stabilize
  | End
  deriving Repr, DecidableEq

/-- Modelled from the spec: the canonical match snapshot. -/
structure MatchState where
  players : List PlayerBoard
  active : Nat
  phase : Phase
  round : Nat
  commonsRow : List Card
  deck : List Card
  discard : List Card
  winner : Option Nat
  solo : Bool
  attackPlayed : Bool
  deriving Repr, DecidableEq

/-- Number of played cards of a given type on a board. -/
def typeCount (p : PlayerBoard) (t : CardType) : Nat :=
  p.played.countP (fun c => decide (c.ctype = t))

def nodeCount (p : PlayerBoard) : Nat := typeCount p CardType.Node

def cpCount (p : PlayerBoard) : Nat := typeCount p CardType.ControlPlane

/-- Cards held by one board: hand plus played (retired cards of an
eliminated player remain in `played` on the flipped board). -/
def boardCards (p : PlayerBoard) : Nat := p.hand.length + p.played.length

def playersCards (ps : List PlayerBoard) : Nat := (ps.map boardCards).sum

/-- The conserved quantity of the card-conservation invariant. -/
def cardSum (st : MatchState) : Nat :=
  st.deck.length + st.discard.length + st.commonsRow.length + playersCards st.players

/-! ## Deck and market manager

Modelled from the spec: draw semantics of section 4.2 — drawing from an
empty draw pile first reshuffles the discard pile into a new draw pile; if
both piles are empty the draw is a no-op surfaced as a `DrawResult`
event, never an error. -/

def updateP (st : MatchState) (i : Nat) (f : PlayerBoard → PlayerBoard) : MatchState :=
  { st with players := modifyAt st.players i f }

/-- Modelled from the spec: reshuffle the discard pile into the deck when
the deck is empty (shuffle modelled as the identity permutation). -/
def reshuffleIfNeeded (st : MatchState) : MatchState :=
  if st.deck.isEmpty then { st with deck := st.discard, discard := [] } else st

inductive DrawResult
  | drew (c : Card)
  | exhausted
  deriving Repr, DecidableEq

/-- Draw the top card of the deck into the hand of player `i` without
reshuffling; a missing card or an out-of-range player index is a no-op. -/
def drawFromDeckE (st : MatchState) (i : Nat) : MatchState × DrawResult :=
  match st.deck with
  | [] => (st, DrawResult.exhausted)
  | c :: rest =>
    if i < st.players.length then
      ({ st with deck := rest,
                 players := modifyAt st.players i (fun p => { p with hand := c :: p.hand }) },
       DrawResult.drew c)
    else (st, DrawResult.exhausted)

/-- Modelled from the spec: one draw — reshuffle if needed, then draw; when
both piles are empty the state is unchanged and the degenerate outcome is
reported as an event. -/
def draw1E (st : MatchState) (i : Nat) : MatchState × DrawResult :=
  drawFromDeckE (reshuffleIfNeeded st) i

def draw1 (st : MatchState) (i : Nat) : MatchState := (draw1E st i).1

def drawN (st : MatchState) (i : Nat) : Nat → MatchState
  | 0 => st
  | n + 1 => drawN (draw1 st i) i n

/-- Draw the top card (reshuffling if needed) onto the end of the Commons
Row; a no-op when both piles are empty. -/
def drawToRow (st : MatchState) : MatchState :=
  match (reshuffleIfNeeded st).deck with
  | [] => st
  | c :: rest =>
    { (reshuffleIfNeeded st) with
      deck := rest,
      commonsRow := (reshuffleIfNeeded st).commonsRow ++ [c] }

/-- Modelled from the spec: refill the Commons Row by up to `n` draws; if
deck and discard are both exhausted the row stays short, which is a
degenerate condition and not an error. -/
def refillRow (st : MatchState) : Nat → MatchState
  | 0 => st
  | n + 1 => refillRow (drawToRow st) n

/-- Move the hand cards of player `i` beyond `limit` to the discard pile
(the embedding discards from the back of the hand; which cards go is a
player choice the spec leaves open). -/
def discardDownTo (st : MatchState) (i limit : Nat) : MatchState :=
  match st.players[i]? with
  | none => st
  | some p =>
    { st with discard := p.hand.drop limit ++ st.discard,
              players := modifyAt st.players i (fun q => { q with hand := q.hand.take limit }) }

/-! ## Effect interpreter

Modelled from the spec: the interpreter dispatches over the closed effect
vocabulary.  Resource, draw and incident-removal instructions act on the
acting player (`self`); incident placement, resource theft and SLO
reduction act on the `target`. -/

def applyEffect (st : MatchState) (self target : Nat) : Effect → MatchState
  | Effect.GainResource n =>
    updateP st self (fun p => { p with resources := p.resources + n })
  | Effect.DrawCard n => drawN st self n
  | Effect.AddIncident n =>
    updateP st target (fun p => { p with incidents := p.incidents + n })
  | Effect.StealResource n =>
    match st.players[target]? with
    | none => st
    | some t =>
      let k := min n t.resources
      updateP (updateP st target (fun p => { p with resources := p.resources - k }))
        self (fun p => { p with resources := p.resources + k })
  | Effect.ReduceSLO n =>
    updateP st target (fun p => { p with slo := p.slo - n })
  | Effect.RemoveIncident n =>
    updateP st self (fun p => { p with incidents := p.incidents - n })
  | Effect.Cancel => st

def applyEffects (st : MatchState) (self target : Nat) : List Effect → MatchState
  | [] => st
  | e :: es => applyEffects (applyEffect st self target e) self target es

/-! ## Turn controller

Modelled from the spec: the seven phases in fixed cyclic order; after End
the active-player index advances to the next non-eliminated player, and
the round counter increments exactly when the advance wraps. -/

def phaseIdx : Phase → Nat
  | Phase.Refresh => 0
  | Phase.Plan => 1
  | Phase.Deploy => 2
  | Phase.Incidents => 3
  | Phase.Sabotage => 4
  | Phase.Stabilize => 5
  | Phase.End => 6

def nextPhase : Phase → Phase
  | Phase.Refresh => Phase.Plan
  | Phase.Plan => Phase.Deploy
  | Phase.Deploy => Phase.Incidents
  | Phase.Incidents => Phase.Sabotage
  | Phase.Sabotage => Phase.Stabilize
  | Phase.Stabilize => Phase.End
  | Phase.End => Phase.Refresh

/-- Whether the player at index `k` exists and is not eliminated. -/
def aliveAt (ps : List PlayerBoard) (k : Nat) : Bool :=
  match ps[k]? with
  | some p => !p.eliminated
  | none => false

/-- Search for the smallest offset `m, m+1, ...` (up to the given fuel)
such that the player at cyclic index `i + offset` is alive. -/
def firstAliveOff (ps : List PlayerBoard) (i : Nat) : Nat → Nat → Option Nat
  | _, 0 => none
  | m, fuel + 1 =>
    if aliveAt ps ((i + m) % ps.length) then some m
    else firstAliveOff ps i (m + 1) fuel

/-- Modelled from the spec: the next non-eliminated player after `i`,
wrapping around the player list; `i` itself when nobody is alive. -/
def nextActive (ps : List PlayerBoard) (i : Nat) : Nat :=
  match firstAliveOff ps i 1 ps.length with
  | some m => (i + m) % ps.length
  | none => i

/-- Modelled from the spec: the End-to-Refresh transition — advance the
active index to the next non-eliminated player and increment the round
counter exactly when the advance wraps past the last player. -/
def advanceTurn (st : MatchState) : MatchState :=
  let j := nextActive st.players st.active
  { st with active := j,
            phase := Phase.Refresh,
            round := if j ≤ st.active then st.round + 1 else st.round,
            attackPlayed := false }

/-! ## Win evaluator

Modelled from the spec: the checkpoint at the end of each Stabilize phase.
Elimination discards the hand and flips the board (played cards stay on it,
retired); the SLO threshold is 12 for 3 or 4 players and 15 for exactly 2
players or solo/co-op; when an elimination leaves exactly one player alive
that player wins immediately. -/

def sloThreshold (st : MatchState) : Nat :=
  if st.solo ∨ st.players.length = 2 then 15 else 12

/-- Eliminate player `i`: the hand goes to the discard pile, the board is
flagged eliminated; played cards remain on the flipped board. -/
def eliminateP (st : MatchState) (i : Nat) : MatchState :=
  match st.players[i]? with
  | none => st
  | some p =>
    { st with discard := p.hand ++ st.discard,
              players := modifyAt st.players i
                (fun q => { q with hand := [], eliminated := true }) }

def countAlive (ps : List PlayerBoard) : Nat :=
  ps.countP (fun p => !p.eliminated)

/-- Index of the first non-eliminated player, when one exists. -/
def survivorIdx : List PlayerBoard → Option Nat
  | [] => none
  | p :: ps =>
    if p.eliminated then (survivorIdx ps).map (· + 1) else some 0

/-- Modelled from the spec: the Win Evaluator checkpoint of section 4.3,
run for the active player at the end of their Stabilize phase. -/
def winEval (st : MatchState) : MatchState :=
  match st.players[st.active]? with
  | none => st
  | some p =>
    if p.resilience < 0 then
      let st' := eliminateP st st.active
      if countAlive st'.players = 1 then
        match survivorIdx st'.players with
        | some j => { st' with winner := some j }
        | none => st'
      else st'
    else if sloThreshold st ≤ p.slo ∧ 0 < p.resilience then
      { st with winner := some st.active }
    else st

/-! ## Actions, validation and application

Modelled from the spec: the inbound action vocabulary of section 6 and the
validate-then-apply discipline of section 4.1 — an action that is not valid
for the current phase or player is rejected without mutating state, and the
queue proceeds to the next action.  The Response play of the interrupt
window is carried inside the attack action (the serialized window of
section 5 admits exactly one optional Response from the target). -/

inductive Action
  | playCard (actor handIdx : Nat)
  | buyCard (actor rowIdx : Nat)
  | discardForResource (actor handIdx : Nat)
  | removeIncident (actor : Nat)
  | payRepair (actor cost : Nat)
  | playAttack (actor handIdx target : Nat) (response : Option Nat)
  | pass (actor : Nat)
  deriving Repr, DecidableEq

inductive VErr
  | matchOver
  | badActor
  | notYourTurn
  | actorEliminated
  | wrongPhase
  | insufficientResources
  | unmetPrerequisite
  | badTarget
  | attackLimit
  deriving Repr, DecidableEq

/-- Modelled from the spec: synchronous validation; `none` means the action
is legal in the current state. -/
def validate (st : MatchState) (a : Action) : Option VErr :=
  if st.winner.isSome then some VErr.matchOver else
  match a with
  | Action.playCard actor i =>
    match st.players[actor]? with
    | none => some VErr.badActor
    | some p =>
      if actor ≠ st.active then some VErr.notYourTurn
      else if p.eliminated then some VErr.actorEliminated
      else if st.phase ≠ Phase.Deploy then some VErr.wrongPhase
      else match p.hand[i]? with
        | none => some VErr.badTarget
        | some c =>
          if c.ctype = CardType.Attack ∨ c.ctype = CardType.Response then some VErr.wrongPhase
          else if p.resources < c.cost then some VErr.insufficientResources
          else if c.ctype = CardType.Workload ∧ (nodeCount p < 2 ∨ cpCount p = 0) then
            some VErr.unmetPrerequisite
          else match c.prereq with
            | none => none
            | some t => if typeCount p t = 0 then some VErr.unmetPrerequisite else none
  | Action.buyCard actor j =>
    match st.players[actor]? with
    | none => some VErr.badActor
    | some p =>
      if actor ≠ st.active then some VErr.notYourTurn
      else if p.eliminated then some VErr.actorEliminated
      else if st.phase ≠ Phase.Deploy then some VErr.wrongPhase
      else match st.commonsRow[j]? with
        | none => some VErr.badTarget
        | some c => if p.resources < c.cost then some VErr.insufficientResources else none
  | Action.discardForResource actor i =>
    match st.players[actor]? with
    | none => some VErr.badActor
    | some p =>
      if actor ≠ st.active then some VErr.notYourTurn
      else if p.eliminated then some VErr.actorEliminated
      else if st.phase ≠ Phase.Plan then some VErr.wrongPhase
      else match p.hand[i]? with
        | none => some VErr.badTarget
        | some _ => none
  | Action.removeIncident actor =>
    match st.players[actor]? with
    | none => some VErr.badActor
    | some p =>
      if actor ≠ st.active then some VErr.notYourTurn
      else if p.eliminated then some VErr.actorEliminated
      else if st.phase ≠ Phase.Refresh then some VErr.wrongPhase
      else if p.incidents = 0 then some VErr.badTarget
      else none
  | Action.payRepair actor cost =>
    match st.players[actor]? with
    | none => some VErr.badActor
    | some p =>
      if actor ≠ st.active then some VErr.notYourTurn
      else if p.eliminated then some VErr.actorEliminated
      else if st.phase ≠ Phase.Stabilize then some VErr.wrongPhase
      else if p.incidents = 0 then some VErr.badTarget
      else if cost = 0 then some VErr.badTarget
      else if p.resources < cost then some VErr.insufficientResources
      else none
  | Action.playAttack actor i target _ =>
    match st.players[actor]? with
    | none => some VErr.badActor
    | some p =>
      if actor ≠ st.active then some VErr.notYourTurn
      else if p.eliminated then some VErr.actorEliminated
      else if st.phase ≠ Phase.Sabotage then some VErr.wrongPhase
      else if st.attackPlayed then some VErr.attackLimit
      else match p.hand[i]? with
        | none => some VErr.badTarget
        | some c =>
          if c.ctype ≠ CardType.Attack then some VErr.wrongPhase
          else if p.resources < c.cost then some VErr.insufficientResources
          else if target = actor then some VErr.badTarget
          else match st.players[target]? with
            | none => some VErr.badTarget
            | some t =>
              if t.eliminated then some VErr.badTarget
              else if t.resilience ≤ 0 then some VErr.badTarget
              else none
  | Action.pass actor =>
    match st.players[actor]? with
    | none => some VErr.badActor
    | some p =>
      if actor ≠ st.active then some VErr.notYourTurn
      else if p.eliminated then some VErr.actorEliminated
      else none

/-- Modelled from the spec: play a card from hand during Deploy — pay the
cost, move the card to the board, add its SLO value when it is a Workload,
take the free draw granted by the first Control Plane, then run its effect
instructions with the player as source and target. -/
def applyPlayCard (st : MatchState) (actor handIdx : Nat) : MatchState :=
  match st.players[actor]? with
  | none => st
  | some p =>
    match p.hand[handIdx]? with
    | none => st
    | some c =>
      let st1 := updateP st actor (fun q =>
        { q with hand := q.hand.eraseIdx handIdx,
                 played := c :: q.played,
                 resources := q.resources - c.cost,
                 slo := q.slo + (if c.ctype = CardType.Workload then c.slo else 0) })
      let st2 := if c.ctype = CardType.ControlPlane ∧ cpCount p = 0
                 then draw1 st1 actor else st1
      applyEffects st2 actor actor c.effects

/-- Modelled from the spec: buy a card from the Commons Row — pay its cost
and move it into the hand; the row is not refilled until End. -/
def applyBuy (st : MatchState) (actor rowIdx : Nat) : MatchState :=
  match st.commonsRow[rowIdx]? with
  | none => st
  | some c =>
    if actor < st.players.length then
      { st with commonsRow := st.commonsRow.eraseIdx rowIdx,
                players := modifyAt st.players actor (fun p =>
                  { p with hand := c :: p.hand, resources := p.resources - c.cost }) }
    else st

/-- Modelled from the spec: discard a hand card for one resource (Plan). -/
def applyDiscardFor (st : MatchState) (actor handIdx : Nat) : MatchState :=
  match st.players[actor]? with
  | none => st
  | some p =>
    match p.hand[handIdx]? with
    | none => st
    | some c =>
      { st with discard := c :: st.discard,
                players := modifyAt st.players actor (fun q =>
                  { q with hand := q.hand.eraseIdx handIdx,
                           resources := q.resources + 1 }) }

/-- Modelled from the spec: the interrupt window — the pending attack
instructions are applied unless the target interrupts with a valid
Response card; the Response is discarded immediately, its instructions
resolve on the target, and a cancelling Response skips the attack
instructions entirely. -/
def resolveResponse (st : MatchState) (actor target : Nat)
    (atkEffects : List Effect) (response : Option Nat) : MatchState :=
  match response with
  | none => applyEffects st actor target atkEffects
  | some j =>
    match (st.players[target]?).bind (fun t => t.hand[j]?) with
    | none => applyEffects st actor target atkEffects
    | some r =>
      if r.ctype = CardType.Response then
        let st2 := { st with
          discard := r :: st.discard,
          players := modifyAt st.players target (fun q =>
            { q with hand := q.hand.eraseIdx j }) }
        if r.effects.contains Effect.Cancel then st2
        else applyEffects (applyEffects st2 target target r.effects) actor target atkEffects
      else applyEffects st actor target atkEffects

/-- Modelled from the spec: Sabotage resolution — the attacker pays the
cost and discards the Attack card (the cost is never refunded); if the
target presents a valid Response it resolves immediately and is discarded;
a cancelling Response makes the engine skip the attack effect instructions
entirely, otherwise the Response instructions run on the target and the
attack instructions are applied afterwards. -/
def applyAttack (st : MatchState) (actor handIdx target : Nat)
    (response : Option Nat) : MatchState :=
  match st.players[actor]? with
  | none => st
  | some p =>
    match p.hand[handIdx]? with
    | none => st
    | some c =>
      resolveResponse
        { st with
          discard := c :: st.discard,
          players := modifyAt st.players actor (fun q =>
            { q with hand := q.hand.eraseIdx handIdx, resources := q.resources - c.cost }),
          attackPlayed := true }
        actor target c.effects response

/-- Apply a validated action to the state. -/
def applyAction (st : MatchState) : Action → MatchState
  | Action.playCard actor i => applyPlayCard st actor i
  | Action.buyCard actor j => applyBuy st actor j
  | Action.discardForResource actor i => applyDiscardFor st actor i
  | Action.removeIncident actor =>
    updateP st actor (fun p => { p with incidents := p.incidents - 1 })
  | Action.payRepair actor cost =>
    updateP st actor (fun p =>
      { p with incidents := p.incidents - 1, resources := p.resources - cost })
  | Action.playAttack actor i target resp => applyAttack st actor i target resp
  | Action.pass _ => st

inductive QEvent
  | applied
  | rejected (e : VErr)
  deriving Repr, DecidableEq

/-- Modelled from the spec: validate-then-apply — a failing validation
returns the state untouched together with a rejection event. -/
def processAction (st : MatchState) (a : Action) : MatchState × QEvent :=
  match validate st a with
  | some e => (st, QEvent.rejected e)
  | none => (applyAction st a, QEvent.applied)

/-- Modelled from the spec: the per-match action queue applies inbound
actions strictly one at a time; a rejected action does not stop the queue. -/
def processQueue (st : MatchState) : List Action → MatchState × List QEvent
  | [] => (st, [])
  | a :: rest =>
    let r1 := processAction st a
    let r2 := processQueue r1.1 rest
    (r2.1, r1.2 :: r2.2)

/-! ## Phase bookkeeping and the step function

Modelled from the spec: the mandatory bookkeeping of each phase (Refresh
draw-to-5 and resource gain, Incidents resolution, Stabilize checkpoint,
End discard-to-7 and row refill) and the Chaos Monkey reveal of solo
mode. -/

/-- Modelled from the spec: Refresh bookkeeping — draw up to a hand of 5,
then gain 2 resources (the optional incident removal is a player action). -/
def refreshStep (st : MatchState) : MatchState :=
  match st.players[st.active]? with
  | none => st
  | some p =>
    let st1 := drawN st st.active (5 - p.hand.length)
    updateP st1 st.active (fun q => { q with resources := q.resources + 2 })

/-- Modelled from the spec: Incidents resolution — each marker on the
active board reduces resilience by 1 (the default effect); markers are not
cleared by resolution. -/
def incidentsStep (st : MatchState) : MatchState :=
  updateP st st.active (fun p =>
    { p with resilience := p.resilience - (p.incidents : Int) })

/-- Modelled from the spec: End bookkeeping — the active player discards
down to 7 cards, then the Commons Row is refilled toward 3 cards. -/
def endStep (st : MatchState) : MatchState :=
  let st1 := discardDownTo st st.active 7
  refillRow st1 (3 - st1.commonsRow.length)

/-- Bookkeeping executed on entering a phase. -/
def enterPhase (st : MatchState) : MatchState :=
  match st.phase with
  | Phase.Refresh => refreshStep st
  | Phase.Incidents => incidentsStep st
  | Phase.End => endStep st
  | _ => st

/-- Bookkeeping executed on leaving a phase: the Win Evaluator checkpoint
runs at the end of Stabilize. -/
def exitPhase (st : MatchState) : MatchState :=
  match st.phase with
  | Phase.Stabilize => winEval st
  | _ => st

/-- Modelled from the spec: advance to the next phase of the fixed cycle;
from End the turn passes to the next non-eliminated player. -/
def advancePhase (st : MatchState) : MatchState :=
  let st1 := exitPhase st
  let st2 :=
    if st.phase = Phase.End then advanceTurn st1
    else { st1 with phase := nextPhase st1.phase }
  enterPhase st2

/-- Modelled from the spec: the Chaos Monkey target — the player with the
highest SLO total, ties broken by lowest resilience, then by turn order. -/
def chaosTargetIdx (ps : List PlayerBoard) : Nat :=
  (List.range ps.length).foldl (fun best i =>
    match ps[best]?, ps[i]? with
    | some b, some p =>
      if p.eliminated then best
      else if b.eliminated then i
      else if b.slo < p.slo then i
      else if p.slo = b.slo ∧ p.resilience < b.resilience then i
      else best
    | _, _ => best) 0

/-- Chaos Monkey attack instructions: the automated actor has no board, so
only the instructions aimed at the target apply. -/
def applyChaosEffect (st : MatchState) (target : Nat) : Effect → MatchState
  | Effect.AddIncident n =>
    updateP st target (fun p => { p with incidents := p.incidents + n })
  | Effect.StealResource n =>
    updateP st target (fun p => { p with resources := p.resources - n })
  | Effect.ReduceSLO n =>
    updateP st target (fun p => { p with slo := p.slo - n })
  | _ => st

def applyChaosEffects (st : MatchState) (target : Nat) : List Effect → MatchState
  | [] => st
  | e :: es => applyChaosEffects (applyChaosEffect st target e) target es

/-- Modelled from the spec: the solo-mode reveal — turn the top card of the
deck face up; an Attack card is applied against the leading player at no
cost through the same response-window pipeline, any other card is simply
discarded. -/
def chaosResolve (st : MatchState) (target : Nat)
    (atkEffects : List Effect) (response : Option Nat) : MatchState :=
  match response with
  | none => applyChaosEffects st target atkEffects
  | some j =>
    match (st.players[target]?).bind (fun t => t.hand[j]?) with
    | none => applyChaosEffects st target atkEffects
    | some r =>
      if r.ctype = CardType.Response then
        let st2 := { st with
          discard := r :: st.discard,
          players := modifyAt st.players target (fun q =>
            { q with hand := q.hand.eraseIdx j }) }
        if r.effects.contains Effect.Cancel then st2
        else applyChaosEffects st2 target atkEffects
      else applyChaosEffects st target atkEffects

def soloReveal (st : MatchState) (response : Option Nat) : MatchState :=
  if ¬st.solo ∨ st.winner.isSome then st else
  match (reshuffleIfNeeded st).deck with
  | [] => st
  | c :: rest =>
    if c.ctype = CardType.Attack then
      chaosResolve
        { (reshuffleIfNeeded st) with
          deck := rest,
          discard := c :: (reshuffleIfNeeded st).discard }
        (chaosTargetIdx (reshuffleIfNeeded st).players) c.effects response
    else
      { (reshuffleIfNeeded st) with
        deck := rest,
        discard := c :: (reshuffleIfNeeded st).discard }

/-- Everything that can advance a match: a queued action, the completion of
the current phase, or the solo-mode reveal between rounds. -/
inductive Input
  | act (a : Action)
  | next
  | reveal (response : Option Nat)

/-- One transition of the engine. -/
def applyInput (st : MatchState) : Input → MatchState
  | Input.act a => (processAction st a).1
  | Input.next => if st.winner.isSome then st else advancePhase st
  | Input.reveal r => soloReveal st r

/-! ## Match setup and reachability -/

/-- Static per-match configuration: the shuffled catalog used for the match
and the seat count. -/
structure MatchConfig where
  numPlayers : Nat
  cards : List Card
  solo : Bool

/-- Modelled from the spec: deal 5 cards and the starting 5 resources and
resilience 6 to each seat, in seating order. -/
def dealHands : Nat → List Card → List PlayerBoard × List Card
  | 0, deck => ([], deck)
  | n + 1, deck =>
    let r := dealHands n (deck.drop 5)
    ({ hand := deck.take 5, played := [], resources := 5, resilience := 6,
       slo := 0, incidents := 0, eliminated := false } :: r.1, r.2)

/-- Modelled from the spec: the initial match snapshot — hands dealt, three
cards revealed as the Commons Row, the first player active in Refresh. -/
def initialMatch (cfg : MatchConfig) : MatchState :=
  let r := dealHands cfg.numPlayers cfg.cards
  { players := r.1,
    active := 0,
    phase := Phase.Refresh,
    round := 1,
    commonsRow := r.2.take 3,
    deck := r.2.drop 3,
    discard := [],
    winner := none,
    solo := cfg.solo,
    attackPlayed := false }

/-- The states a match can reach from its initial snapshot through any
sequence of engine transitions. -/
inductive Reachable (cfg : MatchConfig) : MatchState → Prop
  | init : Reachable cfg (initialMatch cfg)
  | step : ∀ {st : MatchState} (i : Input), Reachable cfg st →
      Reachable cfg (applyInput st i)

/-! ## Card conservation lemmas -/

theorem playersCards_modifyAt (ps : List PlayerBoard) (i : Nat)
    (f : PlayerBoard → PlayerBoard) (h : ∀ p, boardCards (f p) = boardCards p) :
    playersCards (modifyAt ps i f) = playersCards ps := by
  induction ps generalizing i with
  | nil => rfl
  | cons x xs ih =>
    cases i with
    | zero => simp [modifyAt, playersCards, h]
    | succ n =>
      have := ih n
      simp only [modifyAt, playersCards, List.map_cons, List.sum_cons] at *
      omega

theorem playersCards_modifyAt_get (ps : List PlayerBoard) (i : Nat)
    (f : PlayerBoard → PlayerBoard) (x : PlayerBoard) (hx : ps[i]? = some x) :
    playersCards (modifyAt ps i f) + boardCards x = playersCards ps + boardCards (f x) := by
  have hi : i < ps.length := (List.getElem?_eq_some.mp hx).1
  exact modifyAt_map_sum boardCards ps i f hi x hx

theorem csum_updateP (st : MatchState) (i : Nat) (f : PlayerBoard → PlayerBoard)
    (h : ∀ p, boardCards (f p) = boardCards p) :
    cardSum (updateP st i f) = cardSum st := by
  simp [cardSum, updateP, playersCards_modifyAt _ _ _ h]

theorem csum_reshuffle (st : MatchState) :
    cardSum (reshuffleIfNeeded st) = cardSum st := by
  unfold reshuffleIfNeeded
  by_cases h : st.deck.isEmpty
  · have : st.deck = [] := List.isEmpty_iff.mp h
    simp [h, cardSum, this]
  · simp [h]

theorem csum_drawFromDeckE (st : MatchState) (i : Nat) :
    cardSum (drawFromDeckE st i).1 = cardSum st := by
  cases hdeck : st.deck with
  | nil => simp [drawFromDeckE, hdeck]
  | cons c rest =>
    by_cases hi : i < st.players.length
    · have hx : st.players[i]? = some st.players[i] :=
        List.getElem?_eq_getElem hi
      have hsum := playersCards_modifyAt_get st.players i
        (fun p => { p with hand := c :: p.hand }) _ hx
      have hdl : st.deck.length = rest.length + 1 := by rw [hdeck]; simp
      simp only [drawFromDeckE, hdeck, hi, if_true]
      simp only [cardSum]
      simp only [boardCards, List.length_cons] at hsum
      omega
    · simp [drawFromDeckE, hdeck, hi]

theorem csum_draw1 (st : MatchState) (i : Nat) :
    cardSum (draw1 st i) = cardSum st := by
  unfold draw1 draw1E
  rw [csum_drawFromDeckE, csum_reshuffle]

theorem csum_drawN (st : MatchState) (i n : Nat) :
    cardSum (drawN st i n) = cardSum st := by
  induction n generalizing st with
  | zero => rfl
  | succ m ih => rw [drawN, ih, csum_draw1]

theorem csum_drawToRow (st : MatchState) :
    cardSum (drawToRow st) = cardSum st := by
  have hres := csum_reshuffle st
  cases hdeck : (reshuffleIfNeeded st).deck with
  | nil => simp [drawToRow, hdeck]
  | cons c rest =>
    have hlen : (reshuffleIfNeeded st).deck.length = rest.length + 1 := by
      rw [hdeck]; rfl
    simp only [drawToRow, hdeck]
    simp only [cardSum] at hres ⊢
    simp only [List.length_append, List.length_cons, List.length_nil] at *
    omega

theorem csum_refillRow (n : Nat) (st : MatchState) :
    cardSum (refillRow st n) = cardSum st := by
  induction n generalizing st with
  | zero => rfl
  | succ m ih => rw [refillRow, ih, csum_drawToRow]

theorem csum_discardDownTo (st : MatchState) (i limit : Nat) :
    cardSum (discardDownTo st i limit) = cardSum st := by
  cases hp : st.players[i]? with
  | none => simp [discardDownTo, hp]
  | some p =>
    have hsum := playersCards_modifyAt_get st.players i
      (fun q => { q with hand := q.hand.take limit }) p hp
    simp only [discardDownTo, hp]
    simp only [cardSum, List.length_append]
    simp only [boardCards, List.length_take, List.length_drop] at hsum ⊢
    omega

theorem csum_applyEffect (st : MatchState) (self target : Nat) (e : Effect) :
    cardSum (applyEffect st self target e) = cardSum st := by
  cases e with
  | GainResource n => exact csum_updateP _ _ _ (fun p => rfl)
  | AddIncident n => exact csum_updateP _ _ _ (fun p => rfl)
  | StealResource n =>
    cases hp : st.players[target]? with
    | none => simp [applyEffect, hp]
    | some t =>
      simp only [applyEffect, hp]
      exact Eq.trans (csum_updateP _ _ _ (fun p => rfl)) (csum_updateP _ _ _ (fun p => rfl))
  | ReduceSLO n => exact csum_updateP _ _ _ (fun p => rfl)
  | DrawCard n => exact csum_drawN _ _ _
  | RemoveIncident n => exact csum_updateP _ _ _ (fun p => rfl)
  | Cancel => rfl

theorem csum_applyEffects (es : List Effect) (st : MatchState) (self target : Nat) :
    cardSum (applyEffects st self target es) = cardSum st := by
  induction es generalizing st with
  | nil => rfl
  | cons e es ih => rw [applyEffects, ih, csum_applyEffect]

theorem csum_applyPlayCard (st : MatchState) (actor handIdx : Nat) :
    cardSum (applyPlayCard st actor handIdx) = cardSum st := by
  cases hp : st.players[actor]? with
  | none => simp [applyPlayCard, hp]
  | some p =>
    cases hc : p.hand[handIdx]? with
    | none => simp [applyPlayCard, hp, hc]
    | some c =>
      have hlen : handIdx < p.hand.length := (List.getElem?_eq_some.mp hc).1
      have herase : (p.hand.eraseIdx handIdx).length = p.hand.length - 1 := by
        simp [List.length_eraseIdx, hlen]
      have hsum := playersCards_modifyAt_get st.players actor
        (fun q => { q with hand := q.hand.eraseIdx handIdx,
                           played := c :: q.played,
                           resources := q.resources - c.cost,
                           slo := q.slo + (if c.ctype = CardType.Workload then c.slo else 0) }) p hp
      have hst1 : cardSum (updateP st actor (fun q =>
          { q with hand := q.hand.eraseIdx handIdx,
                   played := c :: q.played,
                   resources := q.resources - c.cost,
                   slo := q.slo + (if c.ctype = CardType.Workload then c.slo else 0) })) = cardSum st := by
        simp only [cardSum, updateP]
        simp only [boardCards, List.length_cons, herase] at hsum
        omega
      simp only [applyPlayCard, hp, hc]
      rw [csum_applyEffects]
      split
      · rw [csum_draw1]
        exact hst1
      · exact hst1

theorem csum_applyBuy (st : MatchState) (actor rowIdx : Nat) :
    cardSum (applyBuy st actor rowIdx) = cardSum st := by
  cases hc : st.commonsRow[rowIdx]? with
  | none => simp [applyBuy, hc]
  | some c =>
    by_cases ha : actor < st.players.length
    · have hr : rowIdx < st.commonsRow.length := (List.getElem?_eq_some.mp hc).1
      have herase : (st.commonsRow.eraseIdx rowIdx).length = st.commonsRow.length - 1 := by
        simp [List.length_eraseIdx, hr]
      have hx : st.players[actor]? = some st.players[actor] := List.getElem?_eq_getElem ha
      have hsum := playersCards_modifyAt_get st.players actor
        (fun p => { p with hand := c :: p.hand, resources := p.resources - c.cost }) _ hx
      simp only [applyBuy, hc, ha, if_true]
      simp only [cardSum, herase]
      simp only [boardCards, List.length_cons] at hsum
      omega
    · simp [applyBuy, hc, ha]

theorem csum_applyDiscardFor (st : MatchState) (actor handIdx : Nat) :
    cardSum (applyDiscardFor st actor handIdx) = cardSum st := by
  cases hp : st.players[actor]? with
  | none => simp [applyDiscardFor, hp]
  | some p =>
    cases hc : p.hand[handIdx]? with
    | none => simp [applyDiscardFor, hp, hc]
    | some c =>
      have hlen : handIdx < p.hand.length := (List.getElem?_eq_some.mp hc).1
      have herase : (p.hand.eraseIdx handIdx).length = p.hand.length - 1 := by
        simp [List.length_eraseIdx, hlen]
      have hsum := playersCards_modifyAt_get st.players actor
        (fun q => { q with hand := q.hand.eraseIdx handIdx,
                           resources := q.resources + 1 }) p hp
      simp only [applyDiscardFor, hp, hc]
      simp only [cardSum, List.length_cons]
      simp only [boardCards, herase] at hsum
      omega

theorem csum_eliminateP (st : MatchState) (i : Nat) :
    cardSum (eliminateP st i) = cardSum st := by
  cases hp : st.players[i]? with
  | none => simp [eliminateP, hp]
  | some p =>
    have hsum := playersCards_modifyAt_get st.players i
      (fun q => { q with hand := [], eliminated := true }) p hp
    simp only [eliminateP, hp]
    simp only [cardSum, List.length_append]
    simp only [boardCards, List.length_nil] at hsum
    omega

theorem csum_winEval (st : MatchState) :
    cardSum (winEval st) = cardSum st := by
  unfold winEval
  cases hp : st.players[st.active]? with
  | none => rfl
  | some p =>
    by_cases h1 : p.resilience < 0
    · simp only [h1, if_true]
      have he := csum_eliminateP st st.active
      split
      · split
        · exact he
        · exact he
      · exact he
    · simp only [h1, if_false]
      split
      · rfl
      · rfl

theorem csum_resolveResponse (st : MatchState) (actor target : Nat)
    (atkEffects : List Effect) (resp : Option Nat) :
    cardSum (resolveResponse st actor target atkEffects resp) = cardSum st := by
  cases resp with
  | none => simp [resolveResponse, csum_applyEffects]
  | some j =>
    cases hb : (st.players[target]?).bind (fun t => t.hand[j]?) with
    | none => simp [resolveResponse, hb, csum_applyEffects]
    | some r =>
      obtain ⟨t, ht, htj⟩ : ∃ t, st.players[target]? = some t ∧ t.hand[j]? = some r := by
        cases htt : st.players[target]? with
        | none => rw [htt] at hb; cases hb
        | some t => rw [htt] at hb; exact ⟨t, rfl, hb⟩
      have hjlen : j < t.hand.length := (List.getElem?_eq_some.mp htj).1
      have herase2 : (t.hand.eraseIdx j).length = t.hand.length - 1 := by
        simp [List.length_eraseIdx, hjlen]
      have hsum2 := playersCards_modifyAt_get st.players target
        (fun q => { q with hand := q.hand.eraseIdx j }) t ht
      have h2 : cardSum { st with
          discard := r :: st.discard,
          players := modifyAt st.players target (fun q =>
            { q with hand := q.hand.eraseIdx j }) } = cardSum st := by
        simp only [cardSum, List.length_cons]
        simp only [boardCards, herase2] at hsum2
        omega
      simp only [resolveResponse, hb]
      by_cases hr : r.ctype = CardType.Response
      · simp only [hr, if_true]
        split
        · exact h2
        · rw [csum_applyEffects, csum_applyEffects]
          exact h2
      · simp only [hr, if_false]
        rw [csum_applyEffects]

theorem csum_applyAttack (st : MatchState) (actor handIdx target : Nat)
    (resp : Option Nat) :
    cardSum (applyAttack st actor handIdx target resp) = cardSum st := by
  cases hp : st.players[actor]? with
  | none => simp [applyAttack, hp]
  | some p =>
    cases hc : p.hand[handIdx]? with
    | none => simp [applyAttack, hp, hc]
    | some c =>
      have hlen : handIdx < p.hand.length := (List.getElem?_eq_some.mp hc).1
      have herase : (p.hand.eraseIdx handIdx).length = p.hand.length - 1 := by
        simp [List.length_eraseIdx, hlen]
      have hsum := playersCards_modifyAt_get st.players actor
        (fun q => { q with hand := q.hand.eraseIdx handIdx,
                           resources := q.resources - c.cost }) p hp
      simp only [applyAttack, hp, hc]
      rw [csum_resolveResponse]
      simp only [cardSum, List.length_cons]
      simp only [boardCards, herase] at hsum
      omega

theorem csum_refreshStep (st : MatchState) :
    cardSum (refreshStep st) = cardSum st := by
  cases hp : st.players[st.active]? with
  | none => simp [refreshStep, hp]
  | some p =>
    simp only [refreshStep, hp]
    exact Eq.trans (csum_updateP _ _ _ (fun q => rfl)) (csum_drawN _ _ _)

theorem csum_incidentsStep (st : MatchState) :
    cardSum (incidentsStep st) = cardSum st :=
  csum_updateP _ _ _ (fun _ => rfl)

theorem csum_endStep (st : MatchState) :
    cardSum (endStep st) = cardSum st := by
  unfold endStep
  rw [csum_refillRow, csum_discardDownTo]

theorem csum_enterPhase (st : MatchState) :
    cardSum (enterPhase st) = cardSum st := by
  cases hph : st.phase <;>
    simp [enterPhase, hph, csum_refreshStep, csum_incidentsStep, csum_endStep]

theorem csum_exitPhase (st : MatchState) :
    cardSum (exitPhase st) = cardSum st := by
  cases hph : st.phase <;> simp [exitPhase, hph, csum_winEval]

theorem csum_advanceTurn (st : MatchState) :
    cardSum (advanceTurn st) = cardSum st := by
  simp [advanceTurn, cardSum]

theorem csum_advancePhase (st : MatchState) :
    cardSum (advancePhase st) = cardSum st := by
  unfold advancePhase
  rw [csum_enterPhase]
  split
  · rw [csum_advanceTurn, csum_exitPhase]
  · have : ∀ st' ph, cardSum { st' with phase := ph } = cardSum st' :=
      fun st' ph => rfl
    rw [this, csum_exitPhase]

theorem csum_applyChaosEffect (st : MatchState) (target : Nat) (e : Effect) :
    cardSum (applyChaosEffect st target e) = cardSum st := by
  cases e <;>
    first
      | rfl
      | exact csum_updateP _ _ _ (fun p => rfl)

theorem csum_applyChaosEffects (es : List Effect) (st : MatchState) (target : Nat) :
    cardSum (applyChaosEffects st target es) = cardSum st := by
  induction es generalizing st with
  | nil => rfl
  | cons e es ih => rw [applyChaosEffects, ih, csum_applyChaosEffect]

theorem csum_chaosResolve (st : MatchState) (target : Nat)
    (atkEffects : List Effect) (resp : Option Nat) :
    cardSum (chaosResolve st target atkEffects resp) = cardSum st := by
  cases resp with
  | none => simp [chaosResolve, csum_applyChaosEffects]
  | some j =>
    cases hb : (st.players[target]?).bind (fun t => t.hand[j]?) with
    | none => simp [chaosResolve, hb, csum_applyChaosEffects]
    | some r =>
      obtain ⟨t, ht, htj⟩ : ∃ t, st.players[target]? = some t ∧ t.hand[j]? = some r := by
        cases htt : st.players[target]? with
        | none => rw [htt] at hb; cases hb
        | some t => rw [htt] at hb; exact ⟨t, rfl, hb⟩
      have hjlen : j < t.hand.length := (List.getElem?_eq_some.mp htj).1
      have herase2 : (t.hand.eraseIdx j).length = t.hand.length - 1 := by
        simp [List.length_eraseIdx, hjlen]
      have hsum2 := playersCards_modifyAt_get st.players target
        (fun q => { q with hand := q.hand.eraseIdx j }) t ht
      have h2 : cardSum { st with
          discard := r :: st.discard,
          players := modifyAt st.players target (fun q =>
            { q with hand := q.hand.eraseIdx j }) } = cardSum st := by
        simp only [cardSum, List.length_cons]
        simp only [boardCards, herase2] at hsum2
        omega
      simp only [chaosResolve, hb]
      by_cases hr : r.ctype = CardType.Response
      · simp only [hr, if_true]
        split
        · exact h2
        · rw [csum_applyChaosEffects]
          exact h2
      · simp only [hr, if_false]
        rw [csum_applyChaosEffects]

theorem csum_soloReveal (st : MatchState) (resp : Option Nat) :
    cardSum (soloReveal st resp) = cardSum st := by
  unfold soloReveal
  split
  · rfl
  · have hres := csum_reshuffle st
    cases hdeck : (reshuffleIfNeeded st).deck with
    | nil => rfl
    | cons c rest =>
      have hlen : (reshuffleIfNeeded st).deck.length = rest.length + 1 := by
        rw [hdeck]; rfl
      have hmid : cardSum { (reshuffleIfNeeded st) with
          deck := rest,
          discard := c :: (reshuffleIfNeeded st).discard } = cardSum st := by
        simp only [cardSum, List.length_cons] at hres ⊢
        omega
      simp only [hdeck]
      split
      · rw [csum_chaosResolve]
        exact hmid
      · exact hmid

theorem csum_applyAction (st : MatchState) (a : Action) :
    cardSum (applyAction st a) = cardSum st := by
  cases a with
  | playCard actor i => exact csum_applyPlayCard st actor i
  | buyCard actor j => exact csum_applyBuy st actor j
  | discardForResource actor i => exact csum_applyDiscardFor st actor i
  | removeIncident actor => exact csum_updateP _ _ _ (fun p => rfl)
  | payRepair actor cost => exact csum_updateP _ _ _ (fun p => rfl)
  | playAttack actor i target resp => exact csum_applyAttack st actor i target resp
  | pass actor => rfl

theorem csum_processAction (st : MatchState) (a : Action) :
    cardSum (processAction st a).1 = cardSum st := by
  unfold processAction
  cases validate st a with
  | none => exact csum_applyAction st a
  | some e => rfl

theorem csum_applyInput (st : MatchState) (i : Input) :
    cardSum (applyInput st i) = cardSum st := by
  cases i with
  | act a => exact csum_processAction st a
  | next =>
    simp only [applyInput]
    split
    · rfl
    · exact csum_advancePhase st
  | reveal r => exact csum_soloReveal st r

theorem playersCards_dealHands (n : Nat) (deck : List Card) :
    playersCards (dealHands n deck).1 + (dealHands n deck).2.length = deck.length := by
  induction n generalizing deck with
  | zero => simp [dealHands, playersCards]
  | succ m ih =>
    have := ih (deck.drop 5)
    simp only [dealHands, playersCards, List.map_cons, List.sum_cons, boardCards,
      List.length_take, List.length_drop, List.length_nil] at *
    omega

theorem csum_initialMatch (cfg : MatchConfig) :
    cardSum (initialMatch cfg) = cfg.cards.length := by
  have := playersCards_dealHands cfg.numPlayers cfg.cards
  simp only [initialMatch, cardSum, List.length_take, List.length_drop, List.length_nil]
  omega

/-! ## Sample data for concrete checks -/

def mkCard (i : Nat) (t : CardType) (cost slo : Nat) (es : List Effect) : Card :=
  { id := i, ctype := t, cost := cost, slo := slo, prereq := none,
    repairCost := none, effects := es }

/-- A small concrete catalog exercising every card type. -/
def sampleCards : List Card :=
  [ mkCard 0 CardType.Node 1 0 [],
    mkCard 1 CardType.Node 1 0 [],
    mkCard 2 CardType.ControlPlane 2 0 [],
    mkCard 3 CardType.Workload 2 3 [],
    mkCard 4 CardType.Attack 1 0 [Effect.AddIncident 2],
    mkCard 5 CardType.Response 1 0 [Effect.Cancel],
    mkCard 6 CardType.Storage 1 0 [],
    mkCard 7 CardType.Networking 1 0 [],
    mkCard 8 CardType.Automation 1 0 [Effect.GainResource 1],
    mkCard 9 CardType.Upgrade 1 0 [],
    mkCard 10 CardType.Node 1 0 [],
    mkCard 11 CardType.Workload 3 4 [],
    mkCard 12 CardType.Attack 2 0 [Effect.StealResource 2],
    mkCard 13 CardType.Response 1 0 [Effect.Cancel],
    mkCard 14 CardType.Node 2 0 [] ]

def sampleCfg : MatchConfig :=
  { numPlayers := 2, cards := sampleCards, solo := false }

/-- C1: for every reachable match state, the sum of deck, discard, hands,
played cards and Commons Row equals the catalog size used for the match. -/
theorem C1_card_conservation (cfg : MatchConfig) (st : MatchState)
    (h : Reachable cfg st) :
    st.deck.length + st.discard.length + st.commonsRow.length +
      playersCards st.players = cfg.cards.length := by
  have hmain : cardSum st = cfg.cards.length := by
    induction h with
    | init => exact csum_initialMatch cfg
    | step i hr ih => rw [csum_applyInput]; exact ih
  simpa [cardSum] using hmain

/-- C1 witness: the conservation theorem evaluated at a concrete reachable
state (one engine transition after the initial deal of a 2-player match). -/
theorem C1_card_conservation_witness :
    (applyInput (initialMatch sampleCfg) Input.next).deck.length +
      (applyInput (initialMatch sampleCfg) Input.next).discard.length +
      (applyInput (initialMatch sampleCfg) Input.next).commonsRow.length +
      playersCards (applyInput (initialMatch sampleCfg) Input.next).players =
      sampleCfg.cards.length :=
  C1_card_conservation sampleCfg _ (Reachable.step Input.next Reachable.init)

/-! ## Draw semantics and Commons Row refill -/

/-- C7: drawing from an empty draw pile first reshuffles the discard pile
into a new draw pile and then draws; when the discard pile is empty too the
draw leaves the whole match state unchanged and reports the exhaustion as
an event rather than an error. -/
theorem C7_draw_exhaustion (st : MatchState) (i : Nat) :
    (st.deck = [] → ∀ c d, st.discard = c :: d → i < st.players.length →
       draw1E st i =
         ({ st with
            deck := d,
            discard := [],
            players := modifyAt st.players i (fun p => { p with hand := c :: p.hand }) },
          DrawResult.drew c)) ∧
    (st.deck = [] → st.discard = [] → draw1E st i = (st, DrawResult.exhausted)) := by
  constructor
  · intro hdeck c d hdisc hi
    have hre : reshuffleIfNeeded st = { st with deck := c :: d, discard := [] } := by
      simp [reshuffleIfNeeded, hdeck, hdisc]
    simp [draw1E, hre, drawFromDeckE, hi]
  · intro hdeck hdisc
    have hre : reshuffleIfNeeded st = st := by
      obtain ⟨ps, a, ph, r, row, dk, dc, w, so, ap⟩ := st
      simp only at hdeck hdisc
      subst hdeck
      subst hdisc
      rfl
    simp [draw1E, hre, drawFromDeckE, hdeck]

def drawDemoBoard : PlayerBoard :=
  { hand := [], played := [], resources := 0, resilience := 6, slo := 0,
    incidents := 0, eliminated := false }

def drawDemoState : MatchState :=
  { players := [drawDemoBoard], active := 0, phase := Phase.Refresh, round := 1,
    commonsRow := [], deck := [], discard := [mkCard 0 CardType.Node 1 0 []],
    winner := none, solo := false, attackPlayed := false }

def drawEmptyState : MatchState :=
  { drawDemoState with discard := [] }

/-- C7 witness: both branches of the draw-exhaustion theorem evaluated on
concrete states — a reshuffle-then-draw and a double-empty no-op. -/
theorem C7_draw_exhaustion_witness :
    draw1E drawDemoState 0 =
      ({ drawDemoState with
         deck := [],
         discard := [],
         players := modifyAt drawDemoState.players 0
           (fun p => { p with hand := mkCard 0 CardType.Node 1 0 [] :: p.hand }) },
       DrawResult.drew (mkCard 0 CardType.Node 1 0 [])) ∧
    draw1E drawEmptyState 0 = (drawEmptyState, DrawResult.exhausted) :=
  ⟨(C7_draw_exhaustion drawDemoState 0).1 rfl (mkCard 0 CardType.Node 1 0 []) [] rfl
      (by decide),
   (C7_draw_exhaustion drawEmptyState 0).2 rfl rfl⟩

theorem drawToRow_cases (st : MatchState) :
    (st.deck.length + st.discard.length = 0 ∧ drawToRow st = st) ∨
    ((drawToRow st).commonsRow.length = st.commonsRow.length + 1 ∧
     (drawToRow st).deck.length + (drawToRow st).discard.length + 1 =
       st.deck.length + st.discard.length) := by
  by_cases hd : st.deck.isEmpty
  · have hdeck : st.deck = [] := List.isEmpty_iff.mp hd
    cases hdd : st.discard with
    | nil =>
      left
      constructor
      · simp [hdeck, hdd]
      · simp [drawToRow, reshuffleIfNeeded, hd, hdd]
    | cons c rest =>
      right
      constructor
      · simp [drawToRow, reshuffleIfNeeded, hd, hdd]
      · simp [drawToRow, reshuffleIfNeeded, hd, hdd, hdeck]
  · cases hdeck : st.deck with
    | nil => rw [hdeck] at hd; simp at hd
    | cons c rest =>
      have hne : ¬st.deck.isEmpty := hd
      right
      constructor
      · simp [drawToRow, reshuffleIfNeeded, hne, hdeck]
      · simp [drawToRow, reshuffleIfNeeded, hne, hdeck]
        omega

theorem refillRow_length (n : Nat) (st : MatchState) :
    (refillRow st n).commonsRow.length =
      st.commonsRow.length + min n (st.deck.length + st.discard.length) := by
  induction n generalizing st with
  | zero => simp [refillRow]
  | succ m ih =>
    rw [refillRow, ih]
    rcases drawToRow_cases st with ⟨h0, heq⟩ | ⟨hrow, hsum⟩
    · rw [heq]; omega
    · omega

theorem discardDownTo_row (st : MatchState) (i l : Nat) :
    (discardDownTo st i l).commonsRow = st.commonsRow := by
  unfold discardDownTo; split <;> rfl

theorem discardDownTo_deck (st : MatchState) (i l : Nat) :
    (discardDownTo st i l).deck = st.deck := by
  unfold discardDownTo; split <;> rfl

theorem discardDownTo_discard_ge (st : MatchState) (i l : Nat) :
    st.discard.length ≤ (discardDownTo st i l).discard.length := by
  unfold discardDownTo
  split
  · exact le_refl _
  · simp

/-- C8: buying a card removes it from the Commons Row without an immediate
refill, so the row may drop below 3; once the End phase bookkeeping runs,
the row is back to exactly 3 whenever the deck and discard pile together
held at least the missing number of cards, and otherwise stays short
(computed by the same total function, with no error path). -/
theorem C8_commons_row (st : MatchState) :
    (∀ actor rowIdx c, st.commonsRow[rowIdx]? = some c →
       actor < st.players.length →
       (applyBuy st actor rowIdx).commonsRow = st.commonsRow.eraseIdx rowIdx ∧
       (applyBuy st actor rowIdx).commonsRow.length = st.commonsRow.length - 1) ∧
    (st.commonsRow.length ≤ 3 →
       3 ≤ st.commonsRow.length + st.deck.length + st.discard.length →
       (endStep st).commonsRow.length = 3) ∧
    (st.commonsRow.length ≤ 3 →
       (endStep st).commonsRow.length =
         min 3 (st.commonsRow.length + st.deck.length +
           (discardDownTo st st.active 7).discard.length)) := by
  have hend : (endStep st).commonsRow.length =
      st.commonsRow.length +
        min (3 - st.commonsRow.length)
          (st.deck.length + (discardDownTo st st.active 7).discard.length) := by
    unfold endStep
    rw [refillRow_length]
    rw [discardDownTo_row, discardDownTo_deck]
  refine ⟨?_, ?_, ?_⟩
  · intro actor rowIdx c hc ha
    have hr : rowIdx < st.commonsRow.length := (List.getElem?_eq_some.mp hc).1
    constructor
    · simp [applyBuy, hc, ha]
    · simp [applyBuy, hc, ha, List.length_eraseIdx, hr]
  · intro hle havail
    have hge := discardDownTo_discard_ge st st.active 7
    rw [hend]
    omega
  · intro hle
    rw [hend]
    omega

def rowDemoState : MatchState :=
  { players := [drawDemoBoard, drawDemoBoard], active := 0, phase := Phase.Deploy,
    round := 1,
    commonsRow := [mkCard 2 CardType.ControlPlane 2 0 [],
                   mkCard 6 CardType.Storage 1 0 [],
                   mkCard 7 CardType.Networking 1 0 []],
    deck := [mkCard 8 CardType.Automation 1 0 []],
    discard := [mkCard 9 CardType.Upgrade 1 0 [], mkCard 10 CardType.Node 1 0 []],
    winner := none, solo := false, attackPlayed := false }

/-- C8 witness: the Commons Row theorem evaluated on a concrete state — a
buy shortens the row to 2 entries without a refill, and the End bookkeeping
restores the row to 3. -/
theorem C8_commons_row_witness :
    (applyBuy rowDemoState 0 1).commonsRow.length = 2 ∧
    (endStep (applyBuy rowDemoState 0 1)).commonsRow.length = 3 := by
  have h1 := ((C8_commons_row rowDemoState).1 0 1 (mkCard 6 CardType.Storage 1 0 [])
    (by decide) (by decide)).2
  have h2 := (C8_commons_row (applyBuy rowDemoState 0 1)).2.1
  constructor
  · rw [h1]; decide
  · refine h2 ?_ ?_
    · rw [h1]; decide
    · decide

/-! ## Win evaluator boundary -/

theorem survivorIdx_alive (ps : List PlayerBoard) (j : Nat)
    (h : survivorIdx ps = some j) :
    ∃ q, ps[j]? = some q ∧ q.eliminated = false := by
  induction ps generalizing j with
  | nil => cases h
  | cons p ps ih =>
    by_cases hp : p.eliminated = true
    · simp only [survivorIdx, hp, if_true] at h
      cases hs : survivorIdx ps with
      | none => rw [hs] at h; cases h
      | some m =>
        rw [hs] at h
        simp at h
        subst h
        obtain ⟨q, hq, he⟩ := ih m hs
        exact ⟨q, by simpa using hq, he⟩
    · simp only [survivorIdx, hp, if_false] at h
      cases h
      exact ⟨p, by simp, by simpa using hp⟩

/-- C2: at the Stabilize checkpoint the active player is declared winner
exactly when their SLO total reaches the threshold (12 for 3 or 4 players,
15 for exactly 2 players or solo/co-op) with resilience strictly positive;
they are eliminated exactly when resilience is strictly negative; at
resilience zero neither happens. -/
theorem C2_win_boundary (st : MatchState) (p : PlayerBoard)
    (hp : st.players[st.active]? = some p)
    (halive : p.eliminated = false)
    (hw : st.winner = none) :
    ((winEval st).winner = some st.active ↔
       ((if st.solo ∨ st.players.length = 2 then 15 else 12) ≤ p.slo ∧
        0 < p.resilience)) ∧
    (((winEval st).players[st.active]?).map PlayerBoard.eliminated = some true ↔
       p.resilience < 0) ∧
    (p.resilience = 0 →
       (winEval st).winner = none ∧
       ((winEval st).players[st.active]?).map PlayerBoard.eliminated = some false) := by
  have helim : eliminateP st st.active = { st with
      discard := p.hand ++ st.discard,
      players := modifyAt st.players st.active
        (fun q => { q with hand := [], eliminated := true }) } := by
    unfold eliminateP
    rw [hp]
  have helimget : (eliminateP st st.active).players[st.active]? =
      some { p with hand := [], eliminated := true } := by
    rw [helim]
    show (modifyAt st.players st.active _)[st.active]? = _
    rw [modifyAt_get?_self, hp]
    rfl
  by_cases h1 : p.resilience < 0
  · have hwin : ∀ w, (winEval st).winner = w →
        w = st.winner ∨ ∃ j, w = some j ∧ survivorIdx (eliminateP st st.active).players = some j := by
      intro w hwv
      simp only [winEval, hp, h1, if_true] at hwv
      split at hwv
      · split at hwv
        · exact Or.inr ⟨_, hwv.symm, by assumption⟩
        · rw [helim] at hwv; exact Or.inl (by rw [← hwv])
      · rw [helim] at hwv; exact Or.inl (by rw [← hwv])
    have helim2 : ((winEval st).players[st.active]?).map PlayerBoard.eliminated =
        some true := by
      simp only [winEval, hp, h1, if_true]
      split
      · split
        · show ((eliminateP st st.active).players[st.active]?).map _ = _
          rw [helimget]
          rfl
        · rw [helimget]
          rfl
      · rw [helimget]
        rfl
    refine ⟨?_, ?_, ?_⟩
    · constructor
      · intro hv
        rcases hwin _ hv with hcase | ⟨j, hj, hsj⟩
        · rw [hw] at hcase; cases hcase
        · obtain ⟨q, hq, hqe⟩ := survivorIdx_alive _ _ hsj
          have hjact : j = st.active := (Option.some_inj.mp hj).symm
          subst hjact
          rw [helimget] at hq
          cases hq
          simp at hqe
      · intro hcond
        exact absurd hcond.2 (by omega)
    · simp [helim2, h1]
    · intro h0; omega
  · have hply : (winEval st).players = st.players := by
      simp only [winEval, hp, h1, if_false]
      split <;> rfl
    by_cases h2 : (if st.solo ∨ st.players.length = 2 then 15 else 12) ≤ p.slo ∧
        0 < p.resilience
    · have hwv : (winEval st).winner = some st.active := by
        simp only [winEval, hp, h1, if_false, sloThreshold]
        rw [if_pos h2]
      refine ⟨?_, ?_, ?_⟩
      · exact ⟨fun _ => h2, fun _ => hwv⟩
      · rw [hply, hp]
        simp [halive]
        omega
      · intro h0
        exact absurd h2.2 (by omega)
    · have hwv : (winEval st).winner = none := by
        simp only [winEval, hp, h1, if_false, sloThreshold]
        rw [if_neg h2]
        exact hw
      refine ⟨?_, ?_, ?_⟩
      · constructor
        · intro hcase
          rw [hwv] at hcase
          cases hcase
        · intro hcond
          exact absurd hcond h2
      · rw [hply, hp]
        simp [halive]
        omega
      · intro h0
        refine ⟨hwv, ?_⟩
        rw [hply, hp]
        simp [halive]


def winBoard (slo : Nat) (res : Int) : PlayerBoard :=
  { hand := [], played := [], resources := 0, resilience := res, slo := slo,
    incidents := 0, eliminated := false }

def winDemoState : MatchState :=
  { players := [winBoard 12 1, winBoard 0 6, winBoard 0 6], active := 0,
    phase := Phase.Stabilize, round := 1, commonsRow := [], deck := [],
    discard := [], winner := none, solo := false, attackPlayed := false }

def winZeroState : MatchState :=
  { winDemoState with players := [winBoard 12 0, winBoard 0 6, winBoard 0 6] }

/-- C2 witness: a 3-player checkpoint at SLO 12 with resilience 1 declares
the active player winner; with resilience 0 the same SLO yields neither a
winner nor an elimination. -/
theorem C2_win_boundary_witness :
    (winEval winDemoState).winner = some winDemoState.active ∧
    (winEval winZeroState).winner = none ∧
    ((winEval winZeroState).players[winZeroState.active]?).map
      PlayerBoard.eliminated = some false :=
  ⟨((C2_win_boundary winDemoState (winBoard 12 1) rfl rfl rfl).1).mpr (by decide),
   ((C2_win_boundary winZeroState (winBoard 12 0) rfl rfl rfl).2.2 rfl).1,
   ((C2_win_boundary winZeroState (winBoard 12 0) rfl rfl rfl).2.2 rfl).2⟩

/-! ## Phase sequencing and turn advance -/

theorem firstAliveOff_some (ps : List PlayerBoard) (i : Nat) (fuel m m' : Nat)
    (h : firstAliveOff ps i m fuel = some m') :
    m ≤ m' ∧ m' < m + fuel ∧ aliveAt ps ((i + m') % ps.length) = true ∧
      ∀ k, m ≤ k → k < m' → aliveAt ps ((i + k) % ps.length) = false := by
  induction fuel generalizing m with
  | zero => cases h
  | succ f ih =>
    rw [firstAliveOff] at h
    by_cases ha : aliveAt ps ((i + m) % ps.length) = true
    · rw [if_pos ha] at h
      injection h with hmm
      subst hmm
      exact ⟨le_refl _, by omega, ha, fun k hk1 hk2 => by omega⟩
    · rw [if_neg ha] at h
      obtain ⟨h1, h2, h3, h4⟩ := ih (m + 1) h
      refine ⟨by omega, by omega, h3, ?_⟩
      intro k hk1 hk2
      by_cases hk : k = m
      · subst hk
        rw [Bool.not_eq_true] at ha
        exact ha
      · exact h4 k (by omega) hk2

theorem firstAliveOff_none (ps : List PlayerBoard) (i : Nat) (fuel m : Nat)
    (h : firstAliveOff ps i m fuel = none) :
    ∀ k, m ≤ k → k < m + fuel → aliveAt ps ((i + k) % ps.length) = false := by
  induction fuel generalizing m with
  | zero => intro k h1 h2; omega
  | succ f ih =>
    rw [firstAliveOff] at h
    by_cases ha : aliveAt ps ((i + m) % ps.length) = true
    · rw [if_pos ha] at h; cases h
    · rw [if_neg ha] at h
      intro k h1 h2
      by_cases hk : k = m
      · subst hk
        rw [Bool.not_eq_true] at ha
        exact ha
      · exact ih (m + 1) h k (by omega) (by omega)

theorem nextActive_spec (ps : List PlayerBoard) (i k0 : Nat)
    (hk : k0 < ps.length) (halive : aliveAt ps k0 = true) :
    ∃ m, 1 ≤ m ∧ m ≤ ps.length ∧
      nextActive ps i = (i + m) % ps.length ∧
      aliveAt ps (nextActive ps i) = true ∧
      ∀ k, 1 ≤ k → k < m → aliveAt ps ((i + k) % ps.length) = false := by
  cases hf : firstAliveOff ps i 1 ps.length with
  | some m =>
    obtain ⟨h1, h2, h3, h4⟩ := firstAliveOff_some ps i ps.length 1 m hf
    refine ⟨m, h1, by omega, by simp [nextActive, hf], ?_, h4⟩
    simp only [nextActive, hf]
    exact h3
  | none =>
    exfalso
    have hall := firstAliveOff_none ps i ps.length 1 hf
    have hn : 0 < ps.length := by omega
    have hdm := Nat.div_add_mod i ps.length
    have hrlt : i % ps.length < ps.length := Nat.mod_lt _ hn
    rcases lt_or_le (i % ps.length) k0 with hcase | hcase
    · have hm : (i + (k0 - i % ps.length)) % ps.length = k0 := by
        have heq : i + (k0 - i % ps.length) = k0 + ps.length * (i / ps.length) := by
          omega
        rw [heq, Nat.add_mul_mod_self_left, Nat.mod_eq_of_lt hk]
      have := hall (k0 - i % ps.length) (by omega) (by omega)
      rw [hm] at this
      rw [this] at halive
      cases halive
    · have hm : (i + (k0 + ps.length - i % ps.length)) % ps.length = k0 := by
        have heq : i + (k0 + ps.length - i % ps.length) =
            k0 + ps.length * (i / ps.length + 1) := by
          rw [Nat.mul_succ]
          omega
        rw [heq, Nat.add_mul_mod_self_left, Nat.mod_eq_of_lt hk]
      have := hall (k0 + ps.length - i % ps.length) (by omega) (by omega)
      rw [hm] at this
      rw [this] at halive
      cases halive

theorem eliminateP_phase (st : MatchState) (i : Nat) :
    (eliminateP st i).phase = st.phase := by
  unfold eliminateP
  split <;> rfl

theorem winEval_phase (st : MatchState) : (winEval st).phase = st.phase := by
  cases hp : st.players[st.active]? with
  | none => simp [winEval, hp]
  | some p =>
    by_cases h1 : p.resilience < 0
    · simp only [winEval, hp, h1, if_true]
      by_cases hc : countAlive (eliminateP st st.active).players = 1
      · rw [if_pos hc]
        cases hs : survivorIdx (eliminateP st st.active).players with
        | some j => exact eliminateP_phase st st.active
        | none => exact eliminateP_phase st st.active
      · rw [if_neg hc]
        exact eliminateP_phase st st.active
    · simp only [winEval, hp, h1, if_false]
      split <;> rfl

theorem exitPhase_phase (st : MatchState) : (exitPhase st).phase = st.phase := by
  unfold exitPhase
  split
  · exact winEval_phase st
  · rfl

theorem reshuffle_phase (st : MatchState) :
    (reshuffleIfNeeded st).phase = st.phase := by
  unfold reshuffleIfNeeded
  split <;> rfl

theorem draw1_phase (st : MatchState) (i : Nat) :
    (draw1 st i).phase = st.phase := by
  unfold draw1 draw1E drawFromDeckE
  split
  · exact reshuffle_phase st
  · split
    · exact reshuffle_phase st
    · exact reshuffle_phase st

theorem drawN_phase (st : MatchState) (i n : Nat) :
    (drawN st i n).phase = st.phase := by
  induction n generalizing st with
  | zero => rfl
  | succ m ih => rw [drawN, ih, draw1_phase]

theorem refreshStep_phase (st : MatchState) :
    (refreshStep st).phase = st.phase := by
  unfold refreshStep
  split
  · rfl
  · rw [updateP]
    show (drawN st st.active _).phase = st.phase
    exact drawN_phase st st.active _

theorem drawToRow_phase (st : MatchState) :
    (drawToRow st).phase = st.phase := by
  unfold drawToRow
  split
  · rfl
  · exact reshuffle_phase st

theorem refillRow_phase (n : Nat) (st : MatchState) :
    (refillRow st n).phase = st.phase := by
  induction n generalizing st with
  | zero => rfl
  | succ m ih => rw [refillRow, ih, drawToRow_phase]

theorem endStep_phase (st : MatchState) : (endStep st).phase = st.phase := by
  unfold endStep
  rw [refillRow_phase]
  unfold discardDownTo
  split <;> rfl

theorem enterPhase_phase (st : MatchState) : (enterPhase st).phase = st.phase := by
  unfold enterPhase
  split
  · exact refreshStep_phase st
  · rfl
  · exact endStep_phase st
  · rfl

theorem applyInput_next_of_none (st : MatchState) (hw : st.winner = none) :
    applyInput st Input.next = advancePhase st := by
  simp [applyInput, hw]

/-- C3: the engine cycles through Refresh, Plan, Deploy, Incidents,
Sabotage, Stabilize, End in fixed order with no skips; from End the active
index moves to the first non-eliminated player after it in cyclic seat
order, and the round counter increments exactly when the advance wraps. -/
theorem C3_phase_sequencing :
    (∀ ph : Phase, phaseIdx (nextPhase ph) = (phaseIdx ph + 1) % 7) ∧
    (∀ st : MatchState, st.winner = none → st.phase ≠ Phase.End →
       (applyInput st Input.next).phase = nextPhase st.phase) ∧
    (∀ st : MatchState, st.winner = none → st.phase = Phase.End →
       (applyInput st Input.next).phase = Phase.Refresh) ∧
    (∀ st : MatchState, ∀ k0, k0 < st.players.length →
       aliveAt st.players k0 = true →
       ∃ m, 1 ≤ m ∧ m ≤ st.players.length ∧
         (advanceTurn st).active = (st.active + m) % st.players.length ∧
         aliveAt st.players ((advanceTurn st).active) = true ∧
         (∀ k, 1 ≤ k → k < m →
            aliveAt st.players ((st.active + k) % st.players.length) = false) ∧
         ((advanceTurn st).round = st.round + 1 ↔
            (advanceTurn st).active ≤ st.active)) := by
  refine ⟨by intro ph; cases ph <;> rfl, ?_, ?_, ?_⟩
  · intro st hw hph
    rw [applyInput_next_of_none st hw]
    simp only [advancePhase]
    rw [if_neg hph, enterPhase_phase]
    show nextPhase (exitPhase st).phase = nextPhase st.phase
    rw [exitPhase_phase]
  · intro st hw hph
    rw [applyInput_next_of_none st hw]
    simp only [advancePhase]
    rw [if_pos hph, enterPhase_phase]
    rfl
  · intro st k0 hk halive
    obtain ⟨m, h1, h2, h3, h4, h5⟩ := nextActive_spec st.players st.active k0 hk halive
    refine ⟨m, h1, h2, h3, h4, h5, ?_⟩
    show (if nextActive st.players st.active ≤ st.active
          then st.round + 1 else st.round) = st.round + 1 ↔
         nextActive st.players st.active ≤ st.active
    split
    · rename_i hle
      exact ⟨fun _ => hle, fun _ => rfl⟩
    · rename_i hgt
      refine ⟨fun hEq => ?_, fun hle => absurd hle hgt⟩
      omega

def turnDemoState : MatchState :=
  { players := [winBoard 0 6, { winBoard 0 6 with eliminated := true }, winBoard 0 6],
    active := 2, phase := Phase.End, round := 4, commonsRow := [], deck := [],
    discard := [], winner := none, solo := false, attackPlayed := false }

/-- C3 witness: from End with the active player in the last seat and seat 1
eliminated, the turn wraps to seat 0 and the round counter increments. -/
theorem C3_phase_sequencing_witness :
    phaseIdx (nextPhase Phase.Refresh) = (phaseIdx Phase.Refresh + 1) % 7 ∧
    (applyInput turnDemoState Input.next).phase = Phase.Refresh ∧
    (∃ m, 1 ≤ m ∧ m ≤ turnDemoState.players.length ∧
       (advanceTurn turnDemoState).active =
         (turnDemoState.active + m) % turnDemoState.players.length ∧
       aliveAt turnDemoState.players ((advanceTurn turnDemoState).active) = true ∧
       (∀ k, 1 ≤ k → k < m →
          aliveAt turnDemoState.players
            ((turnDemoState.active + k) % turnDemoState.players.length) = false) ∧
       ((advanceTurn turnDemoState).round = turnDemoState.round + 1 ↔
          (advanceTurn turnDemoState).active ≤ turnDemoState.active)) :=
  ⟨C3_phase_sequencing.1 Phase.Refresh,
   C3_phase_sequencing.2.2.1 turnDemoState rfl rfl,
   C3_phase_sequencing.2.2.2 turnDemoState 0 (by decide) (by decide)⟩

/-! ## Illegal-action atomicity and the action queue -/

/-- C4: an action that fails validation leaves the match state untouched,
produces a rejection event carrying the validation error, and the queue
continues with the remaining actions as if the rejected one were absent. -/
theorem C4_illegal_action_atomic (st : MatchState) (a : Action) (e : VErr)
    (rest : List Action) (h : validate st a = some e) :
    processAction st a = (st, QEvent.rejected e) ∧
    (processQueue st (a :: rest)).1 = (processQueue st rest).1 ∧
    (processQueue st (a :: rest)).2 = QEvent.rejected e :: (processQueue st rest).2 := by
  have hpa : processAction st a = (st, QEvent.rejected e) := by
    simp [processAction, h]
  refine ⟨hpa, ?_, ?_⟩ <;> simp [processQueue, hpa]

/-- C4 witness: a Deploy play attempted by the non-active seat is rejected
with notYourTurn, leaves the state unchanged, and the queue moves on. -/
theorem C4_illegal_action_atomic_witness :
    validate rowDemoState (Action.playCard 1 0) = some VErr.notYourTurn ∧
    processAction rowDemoState (Action.playCard 1 0) =
      (rowDemoState, QEvent.rejected VErr.notYourTurn) ∧
    (processQueue rowDemoState [Action.playCard 1 0]).1 = rowDemoState := by
  have h : validate rowDemoState (Action.playCard 1 0) = some VErr.notYourTurn := by
    decide
  have hc := C4_illegal_action_atomic rowDemoState (Action.playCard 1 0)
    VErr.notYourTurn [] h
  exact ⟨h, hc.1, hc.2.1.trans rfl⟩

/-! ## Response cancellation -/

/-- C6: when the target interrupts an Attack with a purely cancelling
Response, the attack instructions are skipped — the target incident count
is exactly what it was before the attack — while the attacker still ends
with the attack cost deducted and never refunded. -/
theorem C6_response_cancellation (st : MatchState) (actor handIdx target j : Nat)
    (p t : PlayerBoard) (c r : Card)
    (hp : st.players[actor]? = some p)
    (hc : p.hand[handIdx]? = some c)
    (hat : actor ≠ target)
    (ht : st.players[target]? = some t)
    (htj : t.hand[j]? = some r)
    (hr : r.ctype = CardType.Response)
    (hcan : r.effects = [Effect.Cancel]) :
    ((applyAttack st actor handIdx target (some j)).players[target]?).map
        PlayerBoard.incidents = some t.incidents ∧
    ((applyAttack st actor handIdx target (some j)).players[actor]?).map
        PlayerBoard.resources = some (p.resources - c.cost) := by
  have hst1t : (modifyAt st.players actor (fun q =>
      { q with hand := q.hand.eraseIdx handIdx,
               resources := q.resources - c.cost }))[target]? = some t := by
    rw [modifyAt_get?_ne _ _ _ _ (Ne.symm hat)]
    exact ht
  have key : applyAttack st actor handIdx target (some j) =
      { st with
        discard := r :: c :: st.discard,
        players := modifyAt (modifyAt st.players actor (fun q =>
            { q with hand := q.hand.eraseIdx handIdx,
                     resources := q.resources - c.cost }))
          target (fun q => { q with hand := q.hand.eraseIdx j }),
        attackPlayed := true } := by
    simp only [applyAttack, hp, hc, resolveResponse, hst1t, Option.some_bind, htj]
    rw [if_pos hr]
    rw [if_pos (show r.effects.contains Effect.Cancel = true by rw [hcan]; rfl)]
  rw [key]
  constructor
  · show ((modifyAt _ target _)[target]?).map _ = _
    rw [modifyAt_get?_self, hst1t]
    rfl
  · show ((modifyAt _ target _)[actor]?).map _ = _
    rw [modifyAt_get?_ne _ _ _ _ hat, modifyAt_get?_self, hp]
    rfl

def atkCard : Card := mkCard 4 CardType.Attack 1 0 [Effect.AddIncident 2]

def respCard : Card := mkCard 5 CardType.Response 1 0 [Effect.Cancel]

def sabotageState : MatchState :=
  { players := [ { winBoard 0 6 with hand := [atkCard], resources := 3 },
                 { winBoard 0 6 with hand := [respCard], incidents := 1 } ],
    active := 0, phase := Phase.Sabotage, round := 1, commonsRow := [],
    deck := [], discard := [], winner := none, solo := false,
    attackPlayed := false }

/-- C6 witness: an AddIncident(2) attack answered by a cancelling Response
leaves the target at 1 incident and the attacker at 3 − 1 = 2 resources. -/
theorem C6_response_cancellation_witness :
    ((applyAttack sabotageState 0 0 1 (some 0)).players[1]?).map
        PlayerBoard.incidents = some 1 ∧
    ((applyAttack sabotageState 0 0 1 (some 0)).players[0]?).map
        PlayerBoard.resources = some 2 :=
  C6_response_cancellation sabotageState 0 0 1 0
    { winBoard 0 6 with hand := [atkCard], resources := 3 }
    { winBoard 0 6 with hand := [respCard], incidents := 1 }
    atkCard respCard rfl rfl (by decide) rfl rfl rfl rfl

/-! ## WebSocket URL mapping -/

/-- C9: apiWsUrl is a pure function of the parsed base URL and the path:
the produced URL is the rewritten scheme (wss exactly for https, ws in
every other case) followed by the unchanged host and explicit port of the
base origin, with the path appended verbatim. -/
theorem C9_apiWsUrl (base : UrlParts) (path : String) :
    apiWsUrl base path =
      (if base.scheme = "https:" then "wss:" else "ws:") ++ "//" ++ base.host ++
        (match base.port with
         | some p => ":" ++ toString p
         | none => "") ++ path ∧
    (setWsProtocol base).host = base.host ∧
    (setWsProtocol base).port = base.port ∧
    ((setWsProtocol base).scheme = "wss:" ↔ base.scheme = "https:") ∧
    (base.scheme ≠ "https:" → (setWsProtocol base).scheme = "ws:") := by
  refine ⟨rfl, rfl, rfl, ?_, ?_⟩
  · by_cases h : base.scheme = "https:" <;> simp [setWsProtocol, h]
  · intro h
    simp [setWsProtocol, h]

def httpsBase : UrlParts := { scheme := "https:", host := "example.com", port := none }

def httpBase : UrlParts := { scheme := "http:", host := "localhost", port := some 8000 }

/-- C9 witness: the mapping evaluated on an https base without a port and
on an http base with an explicit port. -/
theorem C9_apiWsUrl_witness :
    apiWsUrl httpsBase "/ws/rooms/1" = "wss://example.com/ws/rooms/1" ∧
    apiWsUrl httpBase "/ws" = "ws://localhost:8000/ws" ∧
    (setWsProtocol httpBase).scheme = "ws:" :=
  ⟨((C9_apiWsUrl httpsBase "/ws/rooms/1").1).trans rfl,
   ((C9_apiWsUrl httpBase "/ws").1).trans rfl,
   (C9_apiWsUrl httpBase "/ws").2.2.2.2 (by decide)⟩

/-! ## Table view WebSocket log -/

def snapData : WsData :=
  { type := some "session_snapshot", turnId := none, createdAt := none,
    players := some [] }

def emptyTable : TableState := { messages := [], sessionPlayers := [] }

/-- C10 counterexample: in the newer table view a successfully parsed
session_snapshot message does not prepend a log entry — the message list
stays empty instead of growing to length one as the claim requires of
every parsed message. -/
theorem C10_counterexample :
    (onMessagePart005 (some snapData) "id0" "t0" emptyTable).messages.length = 0 ∧
    ¬ ((onMessagePart005 (some snapData) "id0" "t0" emptyTable).messages.length =
        (emptyTable.messages.take 24).length + 1) := by
  decide

/-- C10 (amended): a parse failure leaves the state unchanged in both
handler versions; in the newer handler a parsed session_snapshot message
only replaces the session-player list, and every other parsed message
prepends exactly one entry to the first 24 retained entries, as does every
parsed message in the TablePlaceholder.tsx handler; consequently a log that
held at most 25 entries still holds at most 25 after any message. -/
theorem C10_ws_log_bounded (parsed : Option WsData) (freshId now : String)
    (st : TableState) (msgs : List WsMessage) :
    (parsed = none → onMessagePart005 parsed freshId now st = st ∧
       onMessageTsx parsed freshId now msgs = msgs) ∧
    (∀ d, parsed = some d →
       (d.type = some "session_snapshot" →
          (onMessagePart005 parsed freshId now st).messages = st.messages) ∧
       (d.type ≠ some "session_snapshot" →
          (onMessagePart005 parsed freshId now st).messages.length =
            min 24 st.messages.length + 1) ∧
       (onMessageTsx parsed freshId now msgs).length = min 24 msgs.length + 1) ∧
    (st.messages.length ≤ 25 →
       (onMessagePart005 parsed freshId now st).messages.length ≤ 25) ∧
    (msgs.length ≤ 25 → (onMessageTsx parsed freshId now msgs).length ≤ 25) := by
  cases parsed with
  | none =>
    refine ⟨fun _ => ⟨rfl, rfl⟩, ?_, fun h => h, fun h => h⟩
    intro d hd
    cases hd
  | some d =>
    refine ⟨?_, ?_, ?_, ?_⟩
    · intro h
      cases h
    · intro d' hd'
      have hdd : d' = d := by
        injection hd' with h
        exact h.symm
      subst hdd
      refine ⟨?_, ?_, ?_⟩
      · intro hty
        simp [onMessagePart005, hty]
      · intro hty
        by_cases htu : WsData.type d' = some "turn" <;>
          simp [onMessagePart005, hty, htu, List.length_take]
      · simp [onMessageTsx, List.length_take]
    · intro hle
      by_cases hty : d.type = some "session_snapshot"
      · simp [onMessagePart005, hty]
        omega
      · by_cases htu : d.type = some "turn" <;>
          simp [onMessagePart005, hty, htu, List.length_take]
    · intro hle
      simp [onMessageTsx, List.length_take]

def turnData : WsData :=
  { type := some "turn", turnId := some "t-1", createdAt := some "now",
    players := none }

/-- C10 witness: the amended log behavior evaluated concretely — a turn
message grows the empty log to one entry and a parse failure leaves the
state untouched. -/
theorem C10_ws_log_bounded_witness :
    (onMessagePart005 (some turnData) "id1" "t1" emptyTable).messages.length =
      min 24 emptyTable.messages.length + 1 ∧
    onMessagePart005 none "id1" "t1" emptyTable = emptyTable :=
  ⟨(((C10_ws_log_bounded (some turnData) "id1" "t1" emptyTable []).2.1 turnData
      rfl).2.1) (by decide),
   ((C10_ws_log_bounded none "id1" "t1" emptyTable []).1 rfl).1⟩

/-! ## Workload prerequisite invariant -/

/-- The controlled-cluster rule of the rulebook: a board that holds any
Workload card also holds at least 1 ControlPlane and 2 Nodes. -/
def playedInv (p : PlayerBoard) : Prop :=
  0 < typeCount p CardType.Workload → 1 ≤ cpCount p ∧ 2 ≤ nodeCount p

def invAll (st : MatchState) : Prop :=
  ∀ (k : Nat) (p : PlayerBoard), st.players[k]? = some p → playedInv p

theorem playedInv_congr (p q : PlayerBoard) (h : q.played = p.played)
    (hp : playedInv p) : playedInv q := by
  unfold playedInv typeCount nodeCount cpCount at *
  unfold typeCount at *
  rw [h]
  exact hp

/-- Two states whose players carry identical played zones index by index. -/
def playedEq (st st' : MatchState) : Prop :=
  ∀ k : Nat, (st'.players[k]?).map PlayerBoard.played =
       (st.players[k]?).map PlayerBoard.played

theorem playedEq_refl (st : MatchState) : playedEq st st := fun _ => rfl

theorem playedEq_trans {a b c : MatchState}
    (h1 : playedEq a b) (h2 : playedEq b c) : playedEq a c :=
  fun k => (h2 k).trans (h1 k)

theorem invAll_of_playedEq {st st' : MatchState}
    (h : playedEq st st') (hinv : invAll st) : invAll st' := by
  intro k p hp
  have hk := h k
  rw [hp] at hk
  cases hq : st.players[k]? with
  | none => rw [hq] at hk; cases hk
  | some q =>
    rw [hq] at hk
    injection hk with hk2
    exact playedInv_congr q p hk2 (hinv k q hq)

theorem playedEq_of_players_eq {st st' : MatchState}
    (h : st'.players = st.players) : playedEq st st' := by
  intro k
  rw [h]

theorem playedEq_modify (st st' : MatchState) (i : Nat)
    (f : PlayerBoard → PlayerBoard)
    (hps : st'.players = modifyAt st.players i f)
    (hf : ∀ p, (f p).played = p.played) : playedEq st st' := by
  intro k
  rw [hps]
  by_cases hk : k = i
  · subst hk
    rw [modifyAt_get?_self]
    cases st.players[k]? <;> simp [hf]
  · rw [modifyAt_get?_ne _ _ _ _ hk]

theorem playedEq_updateP (st : MatchState) (i : Nat)
    (f : PlayerBoard → PlayerBoard) (hf : ∀ p, (f p).played = p.played) :
    playedEq st (updateP st i f) :=
  playedEq_modify st _ i f rfl hf

theorem playedEq_reshuffle (st : MatchState) :
    playedEq st (reshuffleIfNeeded st) := by
  unfold reshuffleIfNeeded
  split
  · exact playedEq_of_players_eq rfl
  · exact playedEq_refl st

theorem playedEq_draw1 (st : MatchState) (i : Nat) :
    playedEq st (draw1 st i) := by
  unfold draw1 draw1E drawFromDeckE
  cases hdeck : (reshuffleIfNeeded st).deck with
  | nil =>
    simp only [hdeck]
    exact playedEq_reshuffle st
  | cons c rest =>
    simp only [hdeck]
    split
    · exact playedEq_trans (playedEq_reshuffle st)
        (playedEq_modify (reshuffleIfNeeded st) _ i _ rfl (fun p => rfl))
    · exact playedEq_reshuffle st

theorem playedEq_drawN (st : MatchState) (i n : Nat) :
    playedEq st (drawN st i n) := by
  induction n generalizing st with
  | zero => exact playedEq_refl st
  | succ m ih =>
    rw [drawN]
    exact playedEq_trans (playedEq_draw1 st i) (ih (draw1 st i))

theorem playedEq_refreshStep (st : MatchState) :
    playedEq st (refreshStep st) := by
  unfold refreshStep
  cases hp : st.players[st.active]? with
  | none => exact playedEq_refl st
  | some p =>
    exact playedEq_trans (playedEq_drawN st st.active (5 - p.hand.length))
      (playedEq_updateP _ st.active _ (fun q => rfl))

theorem playedEq_incidentsStep (st : MatchState) :
    playedEq st (incidentsStep st) :=
  playedEq_updateP st st.active _ (fun _ => rfl)

theorem playedEq_discardDownTo (st : MatchState) (i l : Nat) :
    playedEq st (discardDownTo st i l) := by
  unfold discardDownTo
  cases hp : st.players[i]? with
  | none => exact playedEq_refl st
  | some p =>
    exact playedEq_modify st _ i _ rfl (fun q => rfl)

theorem playedEq_drawToRow (st : MatchState) :
    playedEq st (drawToRow st) := by
  unfold drawToRow
  cases hdeck : (reshuffleIfNeeded st).deck with
  | nil => exact playedEq_refl st
  | cons c rest =>
    exact playedEq_trans (playedEq_reshuffle st) (playedEq_of_players_eq rfl)

theorem playedEq_refillRow (n : Nat) (st : MatchState) :
    playedEq st (refillRow st n) := by
  induction n generalizing st with
  | zero => exact playedEq_refl st
  | succ m ih =>
    rw [refillRow]
    exact playedEq_trans (playedEq_drawToRow st) (ih (drawToRow st))

theorem playedEq_endStep (st : MatchState) : playedEq st (endStep st) := by
  unfold endStep
  exact playedEq_trans (playedEq_discardDownTo st st.active 7)
    (playedEq_refillRow _ _)

theorem playedEq_eliminateP (st : MatchState) (i : Nat) :
    playedEq st (eliminateP st i) := by
  unfold eliminateP
  cases hp : st.players[i]? with
  | none => exact playedEq_refl st
  | some p =>
    exact playedEq_modify st _ i _ rfl (fun q => rfl)

theorem playedEq_winEval (st : MatchState) : playedEq st (winEval st) := by
  cases hp : st.players[st.active]? with
  | none =>
    simp only [winEval, hp]
    exact playedEq_refl st
  | some p =>
    by_cases h1 : p.resilience < 0
    · simp only [winEval, hp, h1, if_true]
      have he := playedEq_eliminateP st st.active
      by_cases hc : countAlive (eliminateP st st.active).players = 1
      · rw [if_pos hc]
        cases hs : survivorIdx (eliminateP st st.active).players with
        | some j => exact playedEq_trans he (playedEq_of_players_eq rfl)
        | none => exact he
      · rw [if_neg hc]
        exact he
    · simp only [winEval, hp, h1, if_false]
      split
      · exact playedEq_of_players_eq rfl
      · exact playedEq_refl st

theorem playedEq_advanceTurn (st : MatchState) :
    playedEq st (advanceTurn st) :=
  playedEq_of_players_eq rfl

theorem playedEq_exitPhase (st : MatchState) : playedEq st (exitPhase st) := by
  unfold exitPhase
  split
  · exact playedEq_winEval st
  · exact playedEq_refl st

theorem playedEq_enterPhase (st : MatchState) : playedEq st (enterPhase st) := by
  unfold enterPhase
  split
  · exact playedEq_refreshStep st
  · exact playedEq_incidentsStep st
  · exact playedEq_endStep st
  · exact playedEq_refl st

theorem playedEq_advancePhase (st : MatchState) :
    playedEq st (advancePhase st) := by
  simp only [advancePhase]
  split
  · exact playedEq_trans (playedEq_exitPhase st)
      (playedEq_trans (playedEq_advanceTurn _) (playedEq_enterPhase _))
  · exact playedEq_trans (playedEq_exitPhase st)
      (playedEq_trans (playedEq_of_players_eq rfl) (playedEq_enterPhase _))

theorem playedEq_applyEffect (st : MatchState) (self target : Nat) (e : Effect) :
    playedEq st (applyEffect st self target e) := by
  cases e with
  | GainResource n => exact playedEq_updateP st self _ (fun p => rfl)
  | AddIncident n => exact playedEq_updateP st target _ (fun p => rfl)
  | StealResource n =>
    cases hp : st.players[target]? with
    | none =>
      simp only [applyEffect, hp]
      exact playedEq_refl st
    | some t =>
      simp only [applyEffect, hp]
      exact playedEq_trans
        (playedEq_updateP st target
          (fun p => { p with resources := p.resources - min n t.resources })
          (fun q => rfl))
        (playedEq_updateP _ self
          (fun p => { p with resources := p.resources + min n t.resources })
          (fun q => rfl))
  | ReduceSLO n => exact playedEq_updateP st target _ (fun p => rfl)
  | DrawCard n => exact playedEq_drawN st self n
  | RemoveIncident n => exact playedEq_updateP st self _ (fun p => rfl)
  | Cancel => exact playedEq_refl st

theorem playedEq_applyEffects (es : List Effect) (st : MatchState)
    (self target : Nat) : playedEq st (applyEffects st self target es) := by
  induction es generalizing st with
  | nil => exact playedEq_refl st
  | cons e es ih =>
    rw [applyEffects]
    exact playedEq_trans (playedEq_applyEffect st self target e) (ih _)

theorem playedEq_applyBuy (st : MatchState) (actor rowIdx : Nat) :
    playedEq st (applyBuy st actor rowIdx) := by
  cases hc : st.commonsRow[rowIdx]? with
  | none =>
    simp only [applyBuy, hc]
    exact playedEq_refl st
  | some c =>
    simp only [applyBuy, hc]
    by_cases ha : actor < st.players.length
    · rw [if_pos ha]
      exact playedEq_modify st _ actor
        (fun p => { p with hand := c :: p.hand, resources := p.resources - c.cost })
        rfl (fun q => rfl)
    · rw [if_neg ha]
      exact playedEq_refl st

theorem playedEq_applyDiscardFor (st : MatchState) (actor handIdx : Nat) :
    playedEq st (applyDiscardFor st actor handIdx) := by
  cases hp : st.players[actor]? with
  | none =>
    simp only [applyDiscardFor, hp]
    exact playedEq_refl st
  | some p =>
    cases hc : p.hand[handIdx]? with
    | none =>
      simp only [applyDiscardFor, hp, hc]
      exact playedEq_refl st
    | some c =>
      simp only [applyDiscardFor, hp, hc]
      exact playedEq_modify st _ actor
        (fun q => { q with hand := q.hand.eraseIdx handIdx,
                           resources := q.resources + 1 })
        rfl (fun q => rfl)

theorem playedEq_resolveResponse (st : MatchState) (actor target : Nat)
    (atkEffects : List Effect) (resp : Option Nat) :
    playedEq st (resolveResponse st actor target atkEffects resp) := by
  cases resp with
  | none =>
    simp only [resolveResponse]
    exact playedEq_applyEffects atkEffects st actor target
  | some j =>
    cases hb : (st.players[target]?).bind (fun t => t.hand[j]?) with
    | none =>
      simp only [resolveResponse, hb]
      exact playedEq_applyEffects atkEffects st actor target
    | some r =>
      simp only [resolveResponse, hb]
      by_cases hr : r.ctype = CardType.Response
      · rw [if_pos hr]
        by_cases hcan : r.effects.contains Effect.Cancel
        · rw [if_pos hcan]
          exact playedEq_modify st _ target
            (fun q => { q with hand := q.hand.eraseIdx j }) rfl (fun q => rfl)
        · rw [if_neg hcan]
          refine playedEq_trans ?_ (playedEq_applyEffects atkEffects _ actor target)
          refine playedEq_trans ?_ (playedEq_applyEffects _ _ target target)
          exact playedEq_modify st _ target
            (fun q => { q with hand := q.hand.eraseIdx j }) rfl (fun q => rfl)
      · rw [if_neg hr]
        exact playedEq_applyEffects atkEffects st actor target

theorem playedEq_applyAttack (st : MatchState) (actor handIdx target : Nat)
    (resp : Option Nat) :
    playedEq st (applyAttack st actor handIdx target resp) := by
  cases hp : st.players[actor]? with
  | none =>
    simp only [applyAttack, hp]
    exact playedEq_refl st
  | some p =>
    cases hc : p.hand[handIdx]? with
    | none =>
      simp only [applyAttack, hp, hc]
      exact playedEq_refl st
    | some c =>
      simp only [applyAttack, hp, hc]
      refine playedEq_trans ?_ (playedEq_resolveResponse _ actor target c.effects resp)
      exact playedEq_modify st _ actor
        (fun q => { q with hand := q.hand.eraseIdx handIdx,
                           resources := q.resources - c.cost })
        rfl (fun q => rfl)

theorem playedEq_applyChaosEffect (st : MatchState) (target : Nat) (e : Effect) :
    playedEq st (applyChaosEffect st target e) := by
  cases e with
  | AddIncident n => exact playedEq_updateP st target _ (fun p => rfl)
  | StealResource n => exact playedEq_updateP st target _ (fun p => rfl)
  | ReduceSLO n => exact playedEq_updateP st target _ (fun p => rfl)
  | GainResource n => exact playedEq_refl st
  | DrawCard n => exact playedEq_refl st
  | RemoveIncident n => exact playedEq_refl st
  | Cancel => exact playedEq_refl st

theorem playedEq_applyChaosEffects (es : List Effect) (st : MatchState)
    (target : Nat) : playedEq st (applyChaosEffects st target es) := by
  induction es generalizing st with
  | nil => exact playedEq_refl st
  | cons e es ih =>
    rw [applyChaosEffects]
    exact playedEq_trans (playedEq_applyChaosEffect st target e) (ih _)

theorem playedEq_chaosResolve (st : MatchState) (target : Nat)
    (atkEffects : List Effect) (resp : Option Nat) :
    playedEq st (chaosResolve st target atkEffects resp) := by
  cases resp with
  | none =>
    simp only [chaosResolve]
    exact playedEq_applyChaosEffects atkEffects st target
  | some j =>
    cases hb : (st.players[target]?).bind (fun t => t.hand[j]?) with
    | none =>
      simp only [chaosResolve, hb]
      exact playedEq_applyChaosEffects atkEffects st target
    | some r =>
      simp only [chaosResolve, hb]
      by_cases hr : r.ctype = CardType.Response
      · rw [if_pos hr]
        by_cases hcan : r.effects.contains Effect.Cancel
        · rw [if_pos hcan]
          exact playedEq_modify st _ target
            (fun q => { q with hand := q.hand.eraseIdx j }) rfl (fun q => rfl)
        · rw [if_neg hcan]
          refine playedEq_trans ?_ (playedEq_applyChaosEffects atkEffects _ target)
          exact playedEq_modify st _ target
            (fun q => { q with hand := q.hand.eraseIdx j }) rfl (fun q => rfl)
      · rw [if_neg hr]
        exact playedEq_applyChaosEffects atkEffects st target

theorem playedEq_soloReveal (st : MatchState) (resp : Option Nat) :
    playedEq st (soloReveal st resp) := by
  unfold soloReveal
  split
  · exact playedEq_refl st
  · cases hdeck : (reshuffleIfNeeded st).deck with
    | nil => exact playedEq_refl st
    | cons c rest =>
      simp only [hdeck]
      split
      · refine playedEq_trans ?_ (playedEq_chaosResolve _ _ c.effects resp)
        refine playedEq_trans (playedEq_reshuffle st) (playedEq_of_players_eq ?_)
        rfl
      · refine playedEq_trans (playedEq_reshuffle st) (playedEq_of_players_eq ?_)
        rfl

theorem validate_playCard_gate (st : MatchState) (actor i : Nat)
    (h : validate st (Action.playCard actor i) = none) :
    ∃ p c, st.players[actor]? = some p ∧ p.hand[i]? = some c ∧
      (c.ctype = CardType.Workload → 2 ≤ nodeCount p ∧ 1 ≤ cpCount p) := by
  simp only [validate] at h
  split at h
  · cases h
  · cases hp : st.players[actor]? with
    | none =>
      simp only [hp] at h
      cases h
    | some p =>
      simp only [hp] at h
      split at h
      · cases h
      · split at h
        · cases h
        · split at h
          · cases h
          · cases hc : p.hand[i]? with
            | none =>
              simp only [hc] at h
              cases h
            | some c =>
              simp only [hc] at h
              split at h
              · cases h
              · split at h
                · cases h
                · split at h
                  · cases h
                  · rename_i hgate
                    refine ⟨p, c, rfl, hc, ?_⟩
                    intro hwl
                    rw [not_and_or] at hgate
                    rcases hgate with hgate | hgate
                    · exact absurd hwl hgate
                    · push_neg at hgate
                      omega

theorem invAll_applyPlayCard (st : MatchState) (actor i : Nat)
    (h : validate st (Action.playCard actor i) = none) (hinv : invAll st) :
    invAll (applyPlayCard st actor i) := by
  obtain ⟨p, c, hp, hc, hgate⟩ := validate_playCard_gate st actor i h
  have hstep : invAll (updateP st actor (fun q =>
      { q with hand := q.hand.eraseIdx i,
               played := c :: q.played,
               resources := q.resources - c.cost,
               slo := q.slo + (if c.ctype = CardType.Workload then c.slo else 0) })) := by
    intro k q hq
    change (modifyAt st.players actor (fun q =>
      { q with hand := q.hand.eraseIdx i,
               played := c :: q.played,
               resources := q.resources - c.cost,
               slo := q.slo + (if c.ctype = CardType.Workload then c.slo else 0) }))[k]? =
        some q at hq
    by_cases hk : k = actor
    · subst hk
      rw [modifyAt_get?_self, hp] at hq
      injection hq with hq2
      subst hq2
      have hbase := hinv k p hp
      have hcount : ∀ t : CardType,
          typeCount { p with hand := p.hand.eraseIdx i,
                             played := c :: p.played,
                             resources := p.resources - c.cost,
                             slo := p.slo + (if c.ctype = CardType.Workload then c.slo else 0) } t =
            typeCount p t + (if c.ctype = t then 1 else 0) := by
        intro t
        show (c :: p.played).countP _ = _
        rw [List.countP_cons]
        by_cases hct : c.ctype = t <;> simp [hct, typeCount]
      unfold playedInv nodeCount cpCount
      rw [hcount, hcount, hcount]
      unfold playedInv nodeCount cpCount at hbase
      by_cases hwl : c.ctype = CardType.Workload
      · obtain ⟨hn, hcp⟩ := hgate hwl
        unfold nodeCount at hn
        unfold cpCount at hcp
        intro _
        exact ⟨by omega, by omega⟩
      · have e0 : (if c.ctype = CardType.Workload then 1 else 0) = 0 := by
          simp [hwl]
        rw [e0]
        intro hpos
        obtain ⟨h1, h2⟩ := hbase (by omega)
        exact ⟨by omega, by omega⟩
    · rw [modifyAt_get?_ne _ _ _ _ hk] at hq
      exact hinv k q hq
  simp only [applyPlayCard, hp, hc]
  refine invAll_of_playedEq (playedEq_applyEffects c.effects _ actor actor) ?_
  split
  · exact invAll_of_playedEq (playedEq_draw1 _ actor) hstep
  · exact hstep

theorem invAll_applyAction (st : MatchState) (a : Action)
    (h : validate st a = none) (hinv : invAll st) :
    invAll (applyAction st a) := by
  cases a with
  | playCard actor i => exact invAll_applyPlayCard st actor i h hinv
  | buyCard actor j =>
    exact invAll_of_playedEq (playedEq_applyBuy st actor j) hinv
  | discardForResource actor i =>
    exact invAll_of_playedEq (playedEq_applyDiscardFor st actor i) hinv
  | removeIncident actor =>
    exact invAll_of_playedEq (playedEq_updateP st actor _ (fun p => rfl)) hinv
  | payRepair actor cost =>
    exact invAll_of_playedEq (playedEq_updateP st actor _ (fun p => rfl)) hinv
  | playAttack actor i target resp =>
    exact invAll_of_playedEq (playedEq_applyAttack st actor i target resp) hinv
  | pass actor => exact hinv

theorem invAll_applyInput (st : MatchState) (inp : Input) (hinv : invAll st) :
    invAll (applyInput st inp) := by
  cases inp with
  | act a =>
    show invAll (processAction st a).1
    unfold processAction
    cases hv : validate st a with
    | some e => exact hinv
    | none => exact invAll_applyAction st a hv hinv
  | next =>
    simp only [applyInput]
    split
    · exact hinv
    · exact invAll_of_playedEq (playedEq_advancePhase st) hinv
  | reveal r => exact invAll_of_playedEq (playedEq_soloReveal st r) hinv

theorem dealHands_played (n : Nat) (deck : List Card) (k : Nat) (p : PlayerBoard)
    (h : (dealHands n deck).1[k]? = some p) : p.played = [] := by
  induction n generalizing deck k with
  | zero => simp [dealHands] at h
  | succ m ih =>
    simp only [dealHands] at h
    cases k with
    | zero =>
      rw [List.getElem?_cons_zero] at h
      injection h with h2
      rw [← h2]
    | succ k2 =>
      rw [List.getElem?_cons_succ] at h
      exact ih (deck.drop 5) k2 h

theorem invAll_initialMatch (cfg : MatchConfig) : invAll (initialMatch cfg) := by
  intro k p hp
  have hpl : p.played = [] := dealHands_played cfg.numPlayers cfg.cards k p hp
  unfold playedInv typeCount
  rw [hpl]
  intro h0
  simp at h0

/-- C5: a Workload play with fewer than 2 Nodes or no ControlPlane is
rejected by validation no matter how many resources the player holds, and
consequently no reachable state contains a board holding a Workload card
without at least 1 ControlPlane and 2 Nodes. -/
theorem C5_workload_gate :
    (∀ (st : MatchState) (actor i : Nat) (p : PlayerBoard) (c : Card),
       st.players[actor]? = some p → p.hand[i]? = some c →
       c.ctype = CardType.Workload → (nodeCount p < 2 ∨ cpCount p = 0) →
       (validate st (Action.playCard actor i)).isSome = true) ∧
    (∀ (cfg : MatchConfig) (st : MatchState), Reachable cfg st → invAll st) := by
  constructor
  · intro st actor i p c hp hc hwl hgate
    simp only [validate, hp, hc]
    split
    · rfl
    · split
      · rfl
      · split
        · rfl
        · split
          · rfl
          · split
            · rfl
            · split
              · rfl
              · split
                · rfl
                · rename_i hcond
                  exact absurd ⟨hwl, hgate⟩ hcond
  · intro cfg st h
    induction h with
    | init => exact invAll_initialMatch cfg
    | step inp hr ih => exact invAll_applyInput _ inp ih

def gateBoard : PlayerBoard :=
  { hand := [mkCard 3 CardType.Workload 2 3 []], played := [],
    resources := 10, resilience := 6, slo := 0, incidents := 0,
    eliminated := false }

def gateState : MatchState :=
  { players := [gateBoard], active := 0, phase := Phase.Deploy, round := 1,
    commonsRow := [], deck := [], discard := [], winner := none,
    solo := false, attackPlayed := false }

/-- C5 witness: a Workload play attempt with no Nodes and plenty of
resources is rejected, and the invariant holds at a freshly dealt match. -/
theorem C5_workload_gate_witness :
    (validate gateState (Action.playCard 0 0)).isSome = true ∧
    invAll (initialMatch sampleCfg) :=
  ⟨C5_workload_gate.1 gateState 0 0 gateBoard (mkCard 3 CardType.Workload 2 3 [])
      rfl rfl rfl (Or.inl (by decide)),
   C5_workload_gate.2 sampleCfg (initialMatch sampleCfg) Reachable.init⟩

end KubeClash
